import Mathlib

/-!
# Verification of the auto-ci technology-detection engine

A shallow embedding of `src/auto_ci.py` (class `RepoScanner` and the data
model it produces), together with proofs and refutations of the frozen
claims about its specification.

Modelling conventions:
* A repository tree is a list of entries; each entry carries its
  repository-relative path string, its final name component, whether it is
  a regular file, and its content.  For a regular file, `content = none`
  models a `read_text` that raises `UnicodeDecodeError` / `PermissionError`,
  which the source catches and skips.  Reading a directory raises an
  **uncaught** `IsADirectoryError`: the fallible layer (`read_textE`,
  `foldlE`, the `…E` channels and `scan_repositoryE`) models this abort
  faithfully, while the total scanner (`scan_repository`) models the scan
  on trees whose content-scanned entries are regular files; on trees of
  regular files the two scanners provably coincide.
* Python float scores are modelled exactly in tenths (see the Data model
  section): the scoring constants 0.2 … 0.8 become the naturals 2 … 8 and
  the clamp at 1.0 becomes a clamp at 10; `confQ` recovers the rational.
* `re.search` is modelled by a small matcher covering exactly the pattern
  language the rule catalog uses: literal characters, `\`-escapes, `.`
  (any character except newline), `.*` gaps, `[...]` classes and a final
  `$` anchor.  Filenames are assumed newline-free.
* `Path.rglob(pat)` is modelled by filtering the tree with an fnmatch-style
  glob on the final name component (the catalog only uses single-component
  patterns; pathlib drops a trailing `/`).
-/

namespace AutoCI

/-- Tokens of the catalog's regex pattern language. -/
inductive RTok where
  | lit (c : Char)
  | dot
  | star
  | cls (cs : List Char)
deriving Repr, DecidableEq

/-- Tokenize a regex string (already stripped of a trailing `$`):
`\c` escapes to a literal, `.*` is a gap, `.` a wildcard, `[...]` a class.
The first argument is `some acc` while inside a `[...]` class. -/
def rtoksA : Option (List Char) → List Char → List RTok
  | none, [] => []
  | none, '\\' :: c :: rest => RTok.lit c :: rtoksA none rest
  | none, ['\\'] => [RTok.lit '\\']
  | none, '.' :: '*' :: rest => RTok.star :: rtoksA none rest
  | none, '.' :: rest => RTok.dot :: rtoksA none rest
  | none, '[' :: rest => rtoksA (some []) rest
  | none, c :: rest => RTok.lit c :: rtoksA none rest
  | some acc, [] => [RTok.cls acc.reverse]
  | some acc, ']' :: rest => RTok.cls acc.reverse :: rtoksA none rest
  | some acc, '\\' :: c :: rest => rtoksA (some (c :: acc)) rest
  | some acc, ['\\'] => [RTok.cls acc.reverse]
  | some acc, c :: rest => rtoksA (some (c :: acc)) rest

/-- The suffixes of `s` reachable by a `.*` gap: `.` does not cross a newline. -/
def starCuts : List Char → List (List Char)
  | [] => [[]]
  | x :: xs => (x :: xs) :: (if x == '\n' then [] else starCuts xs)

/-- Match a token list against a prefix of the character list; with
`anchored = true` the whole remainder must be consumed (a final `$`). -/
def matchHere (anchored : Bool) : List RTok → List Char → Bool
  | [] => fun s => !anchored || s.isEmpty
  | RTok.lit c :: ts => fun s =>
      match s with
      | [] => false
      | x :: xs => c == x && matchHere anchored ts xs
  | RTok.dot :: ts => fun s =>
      match s with
      | [] => false
      | x :: xs => x != '\n' && matchHere anchored ts xs
  | RTok.cls l :: ts => fun s =>
      match s with
      | [] => false
      | x :: xs => l.contains x && matchHere anchored ts xs
  | RTok.star :: ts => fun s => (starCuts s).any (fun s2 => matchHere anchored ts s2)

/-- Model of `re.search`: try the token list at every start position. -/
def searchAux (anchored : Bool) (ts : List RTok) : List Char → Bool
  | [] => matchHere anchored ts []
  | c :: cs => matchHere anchored ts (c :: cs) || searchAux anchored ts cs

/-- Model of Python `re.search(pat, s) is not None` for the catalog's patterns. -/
def reSearch (pat s : String) : Bool :=
  if pat.toList.getLast? == some '$' then
    searchAux true (rtoksA none pat.toList.dropLast) s.toList
  else
    searchAux false (rtoksA none pat.toList) s.toList

/-- All suffixes of a character list (a glob `*` may swallow any run). -/
def globSuffixes : List Char → List (List Char)
  | [] => [[]]
  | x :: xs => (x :: xs) :: globSuffixes xs

/-- fnmatch-style glob on a name: `*` matches any (possibly empty) run. -/
def globMatchL : List Char → List Char → Bool
  | [] => fun s => s.isEmpty
  | '*' :: ps => fun s => (globSuffixes s).any (fun s2 => globMatchL ps s2)
  | p :: ps => fun s =>
      match s with
      | [] => false
      | x :: xs => p == x && globMatchL ps xs

/-- Strip one trailing `/` from a glob pattern (pathlib parses `"spec/"`
into the single part `spec`). -/
def stripSlashL (ps : List Char) : List Char :=
  if ps.getLast? == some '/' then ps.dropLast else ps

/-- Model of `pat` matching the final name component under `Path.rglob`. -/
def globMatch (pat nm : String) : Bool :=
  globMatchL (stripSlashL pat.toList) nm.toList

/-!
## Data model

Scores: every increment in the source (`0.2`, `0.3`, `0.4`, `0.5`, `0.6`,
`0.7`, `0.8`) is a multiple of `0.1`, and the only other operations on
scores are `+`, `0.3 * len(...)`, `min(·, 1.0)` and order comparisons, so
raw scores and confidences live exactly in `(1/10)·ℕ`.  We compute them as
natural numbers of tenths (the source's `0.3` is `3` here, the clamp
`min(raw, 1.0)` is `min raw 10`); `confQ` converts back to the rational
the source's float denotes.  This is an order-isomorphic, exact model of
the idealized decimal arithmetic.
-/

/-- One entry of a repository tree: its repository-relative path string,
final name component, whether it is a regular file, and its content.
For a regular file, `none` models an unreadable / non-UTF8 file, whose
`read_text` raises an exception the source catches and skips.  For a
directory the content field is irrelevant: `read_textE` raises the
uncaught `IsADirectoryError`. -/
structure Entry where
  path : String
  name : String
  isFile : Bool
  content : Option String
deriving Repr, DecidableEq

/-- A repository tree: the entries below the root, in discovery order. -/
abbrev Tree := List Entry

/-- Python dataclass `DetectedTechnology` (confidence in tenths). -/
structure DetectedTechnology where
  name : String
  version : Option String := none
  files : List String := []
  confidence : ℕ := 10
deriving Repr, DecidableEq, Inhabited

/-- The rational value of a confidence stored in tenths. -/
def confQ (t : DetectedTechnology) : ℚ := (t.confidence : ℚ) / 10

/-- Python dataclass `RepoAnalysis`. -/
structure RepoAnalysis where
  languages : List DetectedTechnology
  frameworks : List DetectedTechnology
  test_tools : List DetectedTechnology
  build_tools : List DetectedTechnology
  containers : List DetectedTechnology
  infrastructure : List DetectedTechnology
  package_managers : List DetectedTechnology
  repo_path : String
  primary_language : Option String := none
deriving Repr, DecidableEq

/-- The filesystem as `scan_repository` sees it: whether the supplied path
exists, whether it is a directory, its resolved string form, and the tree
below it (empty when the path is not a directory: `pathlib` selectors
yield nothing under a non-directory). -/
structure RepoFS where
  pathExists : Bool
  isDir : Bool
  resolved : String
  entries : Tree
deriving Repr, DecidableEq

/-- Model of `Path.rglob(pat)` relative to the root: all entries (files and
directories) whose final name component matches the glob, in tree order. -/
def rglobMatches (tree : Tree) (pat : String) : List Entry :=
  tree.filter (fun e => globMatch pat e.name)

/-- The strings `str(m.relative_to(repo_path))` for the first `k` matches. -/
def pathsOf (ms : List Entry) (k : ℕ) : List String :=
  (ms.take k).map (fun e => e.path)

/-- Projection of `Path.read_text(encoding='utf-8')` used by the total
scanner, with `none` for the `UnicodeDecodeError` / `PermissionError`
cases the source catches.  This is faithful only for regular files: a
directory read actually raises an uncaught `IsADirectoryError` and aborts
the scan — see `read_textE` for the faithful fallible semantics, and
`scan_repositoryE_eq_scan_repository` for the proof that on trees of
regular files the total and the fallible scanner coincide. -/
def read_text (e : Entry) : Option String := e.content

/-- What `Path.read_text(encoding='utf-8')` can do: return the content,
raise a caught `UnicodeDecodeError` / `PermissionError`, or raise an
`IsADirectoryError` that `except (UnicodeDecodeError, PermissionError)`
does not catch. -/
inductive ReadOutcome where
  | ok (content : String)
  | caught
  | isADirectoryError
deriving Repr, DecidableEq

/-- Faithful model of `Path.read_text(encoding='utf-8')`: a directory
read raises the uncaught `IsADirectoryError`; an unreadable or non-UTF8
regular file raises an exception the source catches. -/
def read_textE (e : Entry) : ReadOutcome :=
  if e.isFile then
    match e.content with
    | some c => ReadOutcome.ok c
    | none => ReadOutcome.caught
  else ReadOutcome.isADirectoryError

/-- A left fold that stops at the first uncaught exception, as a Python
loop does. -/
def foldlE {α β : Type} (f : α → β → Except String α) : List β → α → Except String α
  | [], a => Except.ok a
  | x :: xs, a =>
      match f a x with
      | Except.error e => Except.error e
      | Except.ok a2 => foldlE f xs a2

/-- Index of the last `'.'` in a name. -/
def lastDotIdx : List Char → Option ℕ
  | [] => none
  | c :: cs =>
      match lastDotIdx cs with
      | some i => some (i + 1)
      | none => if c == '.' then some 0 else none

/-- Python `Path.suffix`: the extension from the last dot, empty for
dotfiles and for a trailing dot. -/
def pySuffix (nm : String) : String :=
  let cs := nm.toList
  match lastDotIdx cs with
  | some i => if 0 < i ∧ i + 1 < cs.length then String.mk (cs.drop i) else ""
  | none => ""

/-!
## Rule catalog (`RepoScanner._load_detection_rules`)

An `Option (List String)` field models the `"content_patterns" in rules`
membership test; `language := ""` models `rules.get("language", "")`.
-/

/-- A `languages` catalog entry. -/
structure LangRule where
  name : String
  files : List String
  patterns : List String
deriving Repr, DecidableEq

/-- A `frameworks` catalog entry. -/
structure FwRule where
  name : String
  files : List String := []
  content_patterns : Option (List String) := none
  language : String := ""
deriving Repr, DecidableEq

/-- A `test_tools` catalog entry. -/
structure TestRule where
  name : String
  files : List String := []
  patterns : List String := []
  content_patterns : Option (List String) := none
  language : String := ""
deriving Repr, DecidableEq

/-- A `build_tools` catalog entry. -/
structure BuildRule where
  name : String
  files : List String := []
  language : String := ""
deriving Repr, DecidableEq

/-- A `containers` catalog entry. -/
structure ContainerRule where
  name : String
  files : List String
  content_patterns : Option (List String) := none
deriving Repr, DecidableEq

/-- An `infrastructure` catalog entry. -/
structure InfraRule where
  name : String
  files : List String
  content_patterns : Option (List String) := none
deriving Repr, DecidableEq

/-- The table `detection_rules["languages"]`. -/
def language_rules : List LangRule := [
  ⟨"python", ["*.py", "requirements.txt", "setup.py", "pyproject.toml", "Pipfile"],
    ["\\.py$", "requirements.*\\.txt$", "setup\\.py$"]⟩,
  ⟨"javascript", ["package.json", "*.js", "*.ts", "yarn.lock", "package-lock.json"],
    ["package\\.json$", "\\.js$", "\\.ts$"]⟩,
  ⟨"go", ["go.mod", "go.sum", "*.go"], ["go\\.mod$", "\\.go$"]⟩,
  ⟨"java", ["pom.xml", "build.gradle", "*.java", "gradlew"],
    ["pom\\.xml$", "build\\.gradle$", "\\.java$"]⟩,
  ⟨"rust", ["Cargo.toml", "Cargo.lock", "*.rs"], ["Cargo\\.toml$", "\\.rs$"]⟩,
  ⟨"php", ["composer.json", "composer.lock", "*.php"], ["composer\\.json$", "\\.php$"]⟩,
  ⟨"ruby", ["Gemfile", "Gemfile.lock", "*.rb", "*.gemspec"], ["Gemfile$", "\\.rb$"]⟩,
  ⟨"csharp", ["*.csproj", "*.sln", "*.cs", "packages.config"],
    ["\\.csproj$", "\\.cs$", "\\.sln$"]⟩]

/-- The table `detection_rules["frameworks"]`. -/
def framework_rules : List FwRule := [
  ⟨"django", ["manage.py", "settings.py"], none, "python"⟩,
  ⟨"flask", ["app.py"], some ["from flask import"], "python"⟩,
  ⟨"fastapi", [], some ["from fastapi import"], "python"⟩,
  ⟨"react", ["package.json"], some ["\"react\""], "javascript"⟩,
  ⟨"vue", ["package.json"], some ["\"vue\""], "javascript"⟩,
  ⟨"angular", ["angular.json", "package.json"], none, "javascript"⟩,
  ⟨"express", ["package.json"], some ["\"express\""], "javascript"⟩,
  ⟨"spring", ["pom.xml"], some ["spring-boot"], "java"⟩,
  ⟨"gin", [], some ["\"github.com/gin-gonic/gin\""], "go"⟩,
  ⟨"laravel", ["artisan", "composer.json"], none, "php"⟩,
  ⟨"rails", ["Gemfile"], some ["gem [\"\\']rails[\"\\']"], "ruby"⟩]

/-- The table `detection_rules["test_tools"]`. -/
def test_tool_rules : List TestRule := [
  ⟨"pytest", ["pytest.ini", "pyproject.toml"], [], some ["pytest"], "python"⟩,
  ⟨"unittest", [], [], some ["import unittest"], "python"⟩,
  ⟨"jest", ["jest.config.js", "package.json"], [], some ["\"jest\""], "javascript"⟩,
  ⟨"mocha", ["package.json"], [], some ["\"mocha\""], "javascript"⟩,
  ⟨"junit", ["pom.xml"], [], some ["junit"], "java"⟩,
  ⟨"go test", [], ["_test\\.go$"], none, "go"⟩,
  ⟨"phpunit", ["phpunit.xml", "composer.json"], [], none, "php"⟩,
  ⟨"rspec", [".rspec", "spec/"], [], none, "ruby"⟩]

/-- The table `detection_rules["build_tools"]`. -/
def build_tool_rules : List BuildRule := [
  ⟨"webpack", ["webpack.config.js", "package.json"], "javascript"⟩,
  ⟨"gulp", ["gulpfile.js"], "javascript"⟩,
  ⟨"grunt", ["Gruntfile.js"], "javascript"⟩,
  ⟨"maven", ["pom.xml"], "java"⟩,
  ⟨"gradle", ["build.gradle", "gradlew"], "java"⟩,
  ⟨"make", ["Makefile", "makefile"], ""⟩,
  ⟨"cmake", ["CMakeLists.txt"], ""⟩,
  ⟨"setuptools", ["setup.py"], "python"⟩,
  ⟨"poetry", ["pyproject.toml"], "python"⟩]

/-- The table `detection_rules["containers"]`. -/
def container_rules : List ContainerRule := [
  ⟨"docker", ["Dockerfile", "docker-compose.yml", ".dockerignore"], none⟩,
  ⟨"podman", ["Containerfile"], none⟩,
  ⟨"kubernetes", ["*.yaml", "*.yml"], some ["apiVersion:", "kind:"]⟩]

/-- The table `detection_rules["infrastructure"]`. -/
def infrastructure_rules : List InfraRule := [
  ⟨"terraform", ["*.tf", "terraform.tfvars"], none⟩,
  ⟨"ansible", ["*.yml", "ansible.cfg"], some ["hosts:", "tasks:"]⟩,
  ⟨"helm", ["Chart.yaml", "values.yaml"], none⟩,
  ⟨"cloudformation", ["*.json", "*.yaml"], some ["AWSTemplateFormatVersion"]⟩]

/-- The table `pm_files` in `_detect_package_managers`. -/
def pm_files : List (String × List String) := [
  ("npm", ["package-lock.json", "package.json"]),
  ("yarn", ["yarn.lock"]),
  ("pnpm", ["pnpm-lock.yaml"]),
  ("pip", ["requirements.txt", "Pipfile"]),
  ("poetry", ["poetry.lock"]),
  ("composer", ["composer.lock"]),
  ("bundler", ["Gemfile.lock"]),
  ("maven", ["pom.xml"]),
  ("gradle", ["build.gradle", "gradle.properties"]),
  ("go modules", ["go.mod"]),
  ("cargo", ["Cargo.lock"])]

/-- The `file_extensions` dict in `_detect_frameworks`. -/
def fw_file_extensions (language : String) : List String :=
  if language == "python" then [".py"]
  else if language == "javascript" then [".js", ".ts"]
  else if language == "java" then [".java"]
  else if language == "go" then [".go"]
  else if language == "php" then [".php"]
  else if language == "ruby" then [".rb"]
  else []

/-- The `file_extensions` dict in `_detect_test_tools` (smaller). -/
def test_file_extensions (language : String) : List String :=
  if language == "python" then [".py"]
  else if language == "javascript" then [".js", ".ts"]
  else if language == "java" then [".java"]
  else []

/-!
## Evidence accumulation (the bodies of the `_detect_*` methods)

Each channel is a left fold carrying `(confidence, found_files)`;
confidence is in tenths.
-/

/-- The running `(confidence, found_files)` pair of one rule's scan. -/
abbrev Acc := ℕ × List String

/-- Languages, file-trigger channel: `confidence += 0.3 * len(matches)`,
`found_files.extend(matches[:5])`. -/
def langFileStep (tree : Tree) (acc : Acc) (file_pattern : String) : Acc :=
  let ms := rglobMatches tree file_pattern
  if ms.isEmpty then acc
  else (acc.1 + 3 * ms.length, acc.2 ++ pathsOf ms 5)

/-- Languages, filename-regex channel, one file: `+0.2` on a name match,
path appended only if not already present. -/
def langPatInner (pattern : String) (a : Acc) (e : Entry) : Acc :=
  if e.isFile && reSearch pattern e.name then
    (a.1 + 2, if a.2.contains e.path then a.2 else a.2 ++ [e.path])
  else a

/-- Languages, filename-regex channel: `+0.2` per matching file, path
appended only if not already present. -/
def langPatStep (tree : Tree) (acc : Acc) (pattern : String) : Acc :=
  tree.foldl (langPatInner pattern) acc

/-- One language rule's raw `(confidence, found_files)`. -/
def langAccum (tree : Tree) (r : LangRule) : Acc :=
  r.patterns.foldl (langPatStep tree) (r.files.foldl (langFileStep tree) (0, []))

/-- Frameworks, file-trigger channel, one matched file: `+0.8` when its
content matches some content pattern (first match wins); unreadable files
are skipped. -/
def fwFileInner (pats : List String) (a : Acc) (m : Entry) : Acc :=
  match read_text m with
  | none => a
  | some content =>
      if pats.any (fun p => reSearch p content) then (a.1 + 8, a.2 ++ [m.path])
      else a

/-- Frameworks, file-trigger channel: with content patterns, `+0.8` per
match whose content matches some pattern (first match wins per file);
without, a flat `+0.5` and `found_files.extend(matches[:3])`. -/
def fwFileStep (tree : Tree) (r : FwRule) (acc : Acc) (file_pattern : String) : Acc :=
  let ms := rglobMatches tree file_pattern
  if ms.isEmpty then acc
  else
    match r.content_patterns with
    | some pats => ms.foldl (fwFileInner pats) acc
    | none => (acc.1 + 5, acc.2 ++ pathsOf ms 3)

/-- Frameworks, content fallback, one file: `+0.3` on a content match;
unreadable files are skipped. -/
def fwContentInner (pats : List String) (a : Acc) (fp : Entry) : Acc :=
  match read_text fp with
  | none => a
  | some content =>
      if pats.any (fun p => reSearch p content) then (a.1 + 3, a.2 ++ [fp.path])
      else a

/-- Frameworks, content fallback over one language extension: `+0.3` per
`*{ext}` file whose content matches. -/
def fwContentStep (tree : Tree) (pats : List String) (acc : Acc) (ext : String) : Acc :=
  (rglobMatches tree ("*" ++ ext)).foldl (fwContentInner pats) acc

/-- One framework rule's raw `(confidence, found_files)`: the fallback
content scan runs only when the file channel recorded no files. -/
def fwAccum (tree : Tree) (r : FwRule) : Acc :=
  let acc := r.files.foldl (fwFileStep tree r) (0, [])
  match r.content_patterns with
  | some pats =>
      if acc.2.isEmpty then (fw_file_extensions r.language).foldl (fwContentStep tree pats) acc
      else acc
  | none => acc

/-- Test tools, file-trigger channel: flat `+0.6`, `matches[:3]`. -/
def testFileStep (tree : Tree) (acc : Acc) (file_pattern : String) : Acc :=
  let ms := rglobMatches tree file_pattern
  if ms.isEmpty then acc
  else (acc.1 + 6, acc.2 ++ pathsOf ms 3)

/-- Test tools, filename-regex channel, one file: `+0.4` on a name match,
path appended unconditionally. -/
def testPatInner (pattern : String) (a : Acc) (e : Entry) : Acc :=
  if e.isFile && reSearch pattern e.name then (a.1 + 4, a.2 ++ [e.path]) else a

/-- Test tools, filename-regex channel: `+0.4` per matching file, path
appended unconditionally. -/
def testPatStep (tree : Tree) (acc : Acc) (pattern : String) : Acc :=
  tree.foldl (testPatInner pattern) acc

/-- Test tools, content channel, one file: `+0.3` on a content match,
path appended only if not already present; unreadable files are skipped. -/
def testContentInner (pats : List String) (a : Acc) (fp : Entry) : Acc :=
  match read_text fp with
  | none => a
  | some content =>
      if pats.any (fun p => reSearch p content) then
        (a.1 + 3, if a.2.contains fp.path then a.2 else a.2 ++ [fp.path])
      else a

/-- Test tools, content channel over one language extension: `+0.3` per
matching file, path appended only if not already present. -/
def testContentStep (tree : Tree) (pats : List String) (acc : Acc) (ext : String) : Acc :=
  (rglobMatches tree ("*" ++ ext)).foldl (testContentInner pats) acc

/-- One test-tool rule's raw `(confidence, found_files)`. -/
def testAccum (tree : Tree) (r : TestRule) : Acc :=
  let acc1 := r.files.foldl (testFileStep tree) (0, [])
  let acc2 := r.patterns.foldl (testPatStep tree) acc1
  match r.content_patterns with
  | some pats => (test_file_extensions r.language).foldl (testContentStep tree pats) acc2
  | none => acc2

/-- Build tools, file-trigger channel: flat `+0.8`, `matches[:3]`. -/
def buildFileStep (tree : Tree) (acc : Acc) (file_pattern : String) : Acc :=
  let ms := rglobMatches tree file_pattern
  if ms.isEmpty then acc
  else (acc.1 + 8, acc.2 ++ pathsOf ms 3)

/-- One build-tool rule's raw `(confidence, found_files)`. -/
def buildAccum (tree : Tree) (r : BuildRule) : Acc :=
  r.files.foldl (buildFileStep tree) (0, [])

/-- Containers, kubernetes rule, one matched file: `+0.7` when it is a
`.yaml`/`.yml` file whose content matches some content pattern;
unreadable files are skipped. -/
def k8sInner (pats : List String) (a : Acc) (m : Entry) : Acc :=
  if pySuffix m.name == ".yaml" || pySuffix m.name == ".yml" then
    match read_text m with
    | none => a
    | some content =>
        if pats.any (fun p => reSearch p content) then (a.1 + 7, a.2 ++ [m.path])
        else a
  else a

/-- Containers, file-trigger channel: the kubernetes rule content-checks
`.yaml`/`.yml` matches at `+0.7` each; other rules get a flat `+0.8`. -/
def containerFileStep (tree : Tree) (r : ContainerRule) (acc : Acc) (file_pattern : String) :
    Acc :=
  let ms := rglobMatches tree file_pattern
  if ms.isEmpty then acc
  else if r.name == "kubernetes" && r.content_patterns.isSome then
    ms.foldl (k8sInner (r.content_patterns.getD [])) acc
  else (acc.1 + 8, acc.2 ++ pathsOf ms 3)

/-- One container rule's raw `(confidence, found_files)`. -/
def containerAccum (tree : Tree) (r : ContainerRule) : Acc :=
  r.files.foldl (containerFileStep tree r) (0, [])

/-- Infrastructure, one matched file of a content-pattern rule: `+0.8` on
a content match; unreadable files are skipped. -/
def infraFileInner (pats : List String) (a : Acc) (m : Entry) : Acc :=
  match read_text m with
  | none => a
  | some content =>
      if pats.any (fun p => reSearch p content) then (a.1 + 8, a.2 ++ [m.path])
      else a

/-- Infrastructure, file-trigger channel: with content patterns, `+0.8`
per match whose content matches; without, a flat `+0.7`. -/
def infraFileStep (tree : Tree) (r : InfraRule) (acc : Acc) (file_pattern : String) : Acc :=
  let ms := rglobMatches tree file_pattern
  if ms.isEmpty then acc
  else
    match r.content_patterns with
    | some pats => ms.foldl (infraFileInner pats) acc
    | none => (acc.1 + 7, acc.2 ++ pathsOf ms 3)

/-- One infrastructure rule's raw `(confidence, found_files)`. -/
def infraAccum (tree : Tree) (r : InfraRule) : Acc :=
  r.files.foldl (infraFileStep tree r) (0, [])

/-- Package managers, lock/config-file channel: flat `+0.8`, `matches[:3]`. -/
def pmFileStep (tree : Tree) (acc : Acc) (file_name : String) : Acc :=
  let ms := rglobMatches tree file_name
  if ms.isEmpty then acc
  else (acc.1 + 8, acc.2 ++ pathsOf ms 3)

/-- One package manager's raw `(confidence, found_files)`. -/
def pmAccum (tree : Tree) (files : List String) : Acc :=
  files.foldl (pmFileStep tree) (0, [])

/-!
## Category assembly: emit positive-score rules, sort by confidence
-/

/-- The emission test `if confidence > 0`, clamping with `min(confidence, 1.0)`. -/
def emit (name : String) (acc : Acc) : Option DetectedTechnology :=
  if 0 < acc.1 then some ⟨name, none, acc.2, min acc.1 10⟩ else none

/-- Stable insertion into a descending-sorted list: `x` goes in front of
the first element of not-larger confidence. -/
def insertDesc (x : DetectedTechnology) :
    List DetectedTechnology → List DetectedTechnology
  | [] => [x]
  | y :: ys => if y.confidence ≤ x.confidence then x :: y :: ys else y :: insertDesc x ys

/-- Python's stable `sorted(..., key=lambda x: x.confidence, reverse=True)`. -/
def sortByConfDesc : List DetectedTechnology → List DetectedTechnology
  | [] => []
  | x :: xs => insertDesc x (sortByConfDesc xs)

/-- The languages list before its final sort, in catalog order. -/
def langUnsorted (tree : Tree) : List DetectedTechnology :=
  language_rules.filterMap (fun r => emit r.name (langAccum tree r))

/-- The frameworks list before its final sort, in catalog order. -/
def fwUnsorted (tree : Tree) : List DetectedTechnology :=
  framework_rules.filterMap (fun r => emit r.name (fwAccum tree r))

/-- The test-tools list before its final sort, in catalog order. -/
def testUnsorted (tree : Tree) : List DetectedTechnology :=
  test_tool_rules.filterMap (fun r => emit r.name (testAccum tree r))

/-- The build-tools list before its final sort, in catalog order. -/
def buildUnsorted (tree : Tree) : List DetectedTechnology :=
  build_tool_rules.filterMap (fun r => emit r.name (buildAccum tree r))

/-- The containers list before its final sort, in catalog order. -/
def containerUnsorted (tree : Tree) : List DetectedTechnology :=
  container_rules.filterMap (fun r => emit r.name (containerAccum tree r))

/-- The infrastructure list before its final sort, in catalog order. -/
def infraUnsorted (tree : Tree) : List DetectedTechnology :=
  infrastructure_rules.filterMap (fun r => emit r.name (infraAccum tree r))

/-- The package-managers list before its final sort, in catalog order. -/
def pmUnsorted (tree : Tree) : List DetectedTechnology :=
  pm_files.filterMap (fun p => emit p.1 (pmAccum tree p.2))

/-- Model of `RepoScanner._detect_languages`, including its final sort. -/
def _detect_languages (tree : Tree) : List DetectedTechnology :=
  sortByConfDesc (langUnsorted tree)

/-- Model of `RepoScanner._detect_frameworks`, including its final sort. -/
def _detect_frameworks (tree : Tree) : List DetectedTechnology :=
  sortByConfDesc (fwUnsorted tree)

/-- Model of `RepoScanner._detect_test_tools`, including its final sort. -/
def _detect_test_tools (tree : Tree) : List DetectedTechnology :=
  sortByConfDesc (testUnsorted tree)

/-- Model of `RepoScanner._detect_build_tools`, including its final sort. -/
def _detect_build_tools (tree : Tree) : List DetectedTechnology :=
  sortByConfDesc (buildUnsorted tree)

/-- Model of `RepoScanner._detect_containers`, including its final sort. -/
def _detect_containers (tree : Tree) : List DetectedTechnology :=
  sortByConfDesc (containerUnsorted tree)

/-- Model of `RepoScanner._detect_infrastructure`, including its final sort. -/
def _detect_infrastructure (tree : Tree) : List DetectedTechnology :=
  sortByConfDesc (infraUnsorted tree)

/-- Model of `RepoScanner._detect_package_managers`, including its final sort. -/
def _detect_package_managers (tree : Tree) : List DetectedTechnology :=
  sortByConfDesc (pmUnsorted tree)

/-- Python `max(languages, key=lambda x: x.confidence)`: the first element
wins ties (`>` replaces, `=` keeps). -/
def pyMaxByConf : List DetectedTechnology → Option DetectedTechnology
  | [] => none
  | t :: ts => some (ts.foldl (fun best x => if best.confidence < x.confidence then x else best) t)

/-- Model of `RepoScanner.scan_repository`: the source validates only
`repo_path.exists()` (there is no `is_dir` check), scans the seven
categories, then sets `primary_language` iff `languages` is non-empty. -/
def scan_repository (fs : RepoFS) : Except String RepoAnalysis :=
  if !fs.pathExists then
    Except.error ("Repository path does not exist: " ++ fs.resolved)
  else
    let langs := _detect_languages fs.entries
    Except.ok {
      languages := langs
      frameworks := _detect_frameworks fs.entries
      test_tools := _detect_test_tools fs.entries
      build_tools := _detect_build_tools fs.entries
      containers := _detect_containers fs.entries
      infrastructure := _detect_infrastructure fs.entries
      package_managers := _detect_package_managers fs.entries
      repo_path := fs.resolved
      primary_language := (pyMaxByConf langs).map (fun t => t.name) }

/-!
## The fallible scanner

The content-regex channels call `read_text` on every glob match with no
`is_file()` check, and `except (UnicodeDecodeError, PermissionError)`
does not catch the `IsADirectoryError` a directory read raises, so the
real scan aborts on a glob-matched directory.  The `…E` definitions below
mirror the four content-reading categories with this error path; the
other three categories never read content and are shared with the total
scanner.  On trees of regular files the two scanners coincide
(`scan_repositoryE_eq_scan_repository`).
-/

/-- Fallible twin of `fwFileInner`: a directory match aborts. -/
def fwFileInnerE (pats : List String) (a : Acc) (m : Entry) : Except String Acc :=
  match read_textE m with
  | ReadOutcome.isADirectoryError => Except.error ("IsADirectoryError: " ++ m.path)
  | ReadOutcome.caught => Except.ok a
  | ReadOutcome.ok content =>
      Except.ok (if pats.any (fun p => reSearch p content) then (a.1 + 8, a.2 ++ [m.path])
        else a)

/-- Fallible twin of `fwContentInner`: a directory match aborts. -/
def fwContentInnerE (pats : List String) (a : Acc) (fp : Entry) : Except String Acc :=
  match read_textE fp with
  | ReadOutcome.isADirectoryError => Except.error ("IsADirectoryError: " ++ fp.path)
  | ReadOutcome.caught => Except.ok a
  | ReadOutcome.ok content =>
      Except.ok (if pats.any (fun p => reSearch p content) then (a.1 + 3, a.2 ++ [fp.path])
        else a)

/-- Fallible twin of `testContentInner`: a directory match aborts. -/
def testContentInnerE (pats : List String) (a : Acc) (fp : Entry) : Except String Acc :=
  match read_textE fp with
  | ReadOutcome.isADirectoryError => Except.error ("IsADirectoryError: " ++ fp.path)
  | ReadOutcome.caught => Except.ok a
  | ReadOutcome.ok content =>
      Except.ok (if pats.any (fun p => reSearch p content) then
          (a.1 + 3, if a.2.contains fp.path then a.2 else a.2 ++ [fp.path])
        else a)

/-- Fallible twin of `k8sInner`: the suffix test passes for a directory
named `*.yaml` / `*.yml`, whose read then aborts. -/
def k8sInnerE (pats : List String) (a : Acc) (m : Entry) : Except String Acc :=
  if pySuffix m.name == ".yaml" || pySuffix m.name == ".yml" then
    match read_textE m with
    | ReadOutcome.isADirectoryError => Except.error ("IsADirectoryError: " ++ m.path)
    | ReadOutcome.caught => Except.ok a
    | ReadOutcome.ok content =>
        Except.ok (if pats.any (fun p => reSearch p content) then (a.1 + 7, a.2 ++ [m.path])
          else a)
  else Except.ok a

/-- Fallible twin of `infraFileInner`: a directory match aborts. -/
def infraFileInnerE (pats : List String) (a : Acc) (m : Entry) : Except String Acc :=
  match read_textE m with
  | ReadOutcome.isADirectoryError => Except.error ("IsADirectoryError: " ++ m.path)
  | ReadOutcome.caught => Except.ok a
  | ReadOutcome.ok content =>
      Except.ok (if pats.any (fun p => reSearch p content) then (a.1 + 8, a.2 ++ [m.path])
        else a)

/-- Fallible twin of `fwFileStep`. -/
def fwFileStepE (tree : Tree) (r : FwRule) (acc : Acc) (file_pattern : String) :
    Except String Acc :=
  let ms := rglobMatches tree file_pattern
  if ms.isEmpty then Except.ok acc
  else
    match r.content_patterns with
    | some pats => foldlE (fwFileInnerE pats) ms acc
    | none => Except.ok (acc.1 + 5, acc.2 ++ pathsOf ms 3)

/-- Fallible twin of `fwContentStep`. -/
def fwContentStepE (tree : Tree) (pats : List String) (acc : Acc) (ext : String) :
    Except String Acc :=
  foldlE (fwContentInnerE pats) (rglobMatches tree ("*" ++ ext)) acc

/-- Fallible twin of `testContentStep`. -/
def testContentStepE (tree : Tree) (pats : List String) (acc : Acc) (ext : String) :
    Except String Acc :=
  foldlE (testContentInnerE pats) (rglobMatches tree ("*" ++ ext)) acc

/-- Fallible twin of `containerFileStep`. -/
def containerFileStepE (tree : Tree) (r : ContainerRule) (acc : Acc) (file_pattern : String) :
    Except String Acc :=
  let ms := rglobMatches tree file_pattern
  if ms.isEmpty then Except.ok acc
  else if r.name == "kubernetes" && r.content_patterns.isSome then
    foldlE (k8sInnerE (r.content_patterns.getD [])) ms acc
  else Except.ok (acc.1 + 8, acc.2 ++ pathsOf ms 3)

/-- Fallible twin of `infraFileStep`. -/
def infraFileStepE (tree : Tree) (r : InfraRule) (acc : Acc) (file_pattern : String) :
    Except String Acc :=
  let ms := rglobMatches tree file_pattern
  if ms.isEmpty then Except.ok acc
  else
    match r.content_patterns with
    | some pats => foldlE (infraFileInnerE pats) ms acc
    | none => Except.ok (acc.1 + 7, acc.2 ++ pathsOf ms 3)

/-- Fallible twin of `fwAccum`. -/
def fwAccumE (tree : Tree) (r : FwRule) : Except String Acc :=
  match foldlE (fun a p => fwFileStepE tree r a p) r.files (0, []) with
  | Except.error e => Except.error e
  | Except.ok acc =>
      match r.content_patterns with
      | some pats =>
          if acc.2.isEmpty then
            foldlE (fun a ext => fwContentStepE tree pats a ext) (fw_file_extensions r.language)
              acc
          else Except.ok acc
      | none => Except.ok acc

/-- Fallible twin of `testAccum` (its file and filename-regex channels
read no content and cannot raise). -/
def testAccumE (tree : Tree) (r : TestRule) : Except String Acc :=
  let acc2 := r.patterns.foldl (testPatStep tree) (r.files.foldl (testFileStep tree) (0, []))
  match r.content_patterns with
  | some pats =>
      foldlE (fun a ext => testContentStepE tree pats a ext) (test_file_extensions r.language)
        acc2
  | none => Except.ok acc2

/-- Fallible twin of `containerAccum`. -/
def containerAccumE (tree : Tree) (r : ContainerRule) : Except String Acc :=
  foldlE (fun a p => containerFileStepE tree r a p) r.files (0, [])

/-- Fallible twin of `infraAccum`. -/
def infraAccumE (tree : Tree) (r : InfraRule) : Except String Acc :=
  foldlE (fun a p => infraFileStepE tree r a p) r.files (0, [])

/-- Fallible twin of `fwUnsorted`: the rules are scanned in catalog order
and the first uncaught exception aborts. -/
def fwUnsortedE (tree : Tree) : Except String (List DetectedTechnology) :=
  foldlE (fun acc r =>
    match fwAccumE tree r with
    | Except.error e => Except.error e
    | Except.ok a => Except.ok (acc ++ (emit r.name a).toList)) framework_rules []

/-- Fallible twin of `testUnsorted`. -/
def testUnsortedE (tree : Tree) : Except String (List DetectedTechnology) :=
  foldlE (fun acc r =>
    match testAccumE tree r with
    | Except.error e => Except.error e
    | Except.ok a => Except.ok (acc ++ (emit r.name a).toList)) test_tool_rules []

/-- Fallible twin of `containerUnsorted`. -/
def containerUnsortedE (tree : Tree) : Except String (List DetectedTechnology) :=
  foldlE (fun acc r =>
    match containerAccumE tree r with
    | Except.error e => Except.error e
    | Except.ok a => Except.ok (acc ++ (emit r.name a).toList)) container_rules []

/-- Fallible twin of `infraUnsorted`. -/
def infraUnsortedE (tree : Tree) : Except String (List DetectedTechnology) :=
  foldlE (fun acc r =>
    match infraAccumE tree r with
    | Except.error e => Except.error e
    | Except.ok a => Except.ok (acc ++ (emit r.name a).toList)) infrastructure_rules []

/-- Fallible twin of `_detect_frameworks`. -/
def _detect_frameworksE (tree : Tree) : Except String (List DetectedTechnology) :=
  match fwUnsortedE tree with
  | Except.error e => Except.error e
  | Except.ok l => Except.ok (sortByConfDesc l)

/-- Fallible twin of `_detect_test_tools`. -/
def _detect_test_toolsE (tree : Tree) : Except String (List DetectedTechnology) :=
  match testUnsortedE tree with
  | Except.error e => Except.error e
  | Except.ok l => Except.ok (sortByConfDesc l)

/-- Fallible twin of `_detect_containers`. -/
def _detect_containersE (tree : Tree) : Except String (List DetectedTechnology) :=
  match containerUnsortedE tree with
  | Except.error e => Except.error e
  | Except.ok l => Except.ok (sortByConfDesc l)

/-- Fallible twin of `_detect_infrastructure`. -/
def _detect_infrastructureE (tree : Tree) : Except String (List DetectedTechnology) :=
  match infraUnsortedE tree with
  | Except.error e => Except.error e
  | Except.ok l => Except.ok (sortByConfDesc l)

/-- Faithful model of `scan_repository`: the four content-reading
category scans can raise, in the source's order (languages, build tools
and package managers never read content and cannot). -/
def scan_repositoryE (fs : RepoFS) : Except String RepoAnalysis :=
  if !fs.pathExists then
    Except.error ("Repository path does not exist: " ++ fs.resolved)
  else
    match _detect_frameworksE fs.entries with
    | Except.error e => Except.error e
    | Except.ok fws =>
      match _detect_test_toolsE fs.entries with
      | Except.error e => Except.error e
      | Except.ok tests =>
        match _detect_containersE fs.entries with
        | Except.error e => Except.error e
        | Except.ok conts =>
          match _detect_infrastructureE fs.entries with
          | Except.error e => Except.error e
          | Except.ok infras =>
            let langs := _detect_languages fs.entries
            Except.ok {
              languages := langs
              frameworks := fws
              test_tools := tests
              build_tools := _detect_build_tools fs.entries
              containers := conts
              infrastructure := infras
              package_managers := _detect_package_managers fs.entries
              repo_path := fs.resolved
              primary_language := (pyMaxByConf langs).map (fun t => t.name) }

/-- An unreadable regular file (premise of the unreadable-file claim). -/
def unreadableBlob : Entry := ⟨"blob.bin", "blob.bin", true, none⟩

/-- A directory whose name matches the `*.py` fallback scan. -/
def pyDir : Entry := ⟨"x.py", "x.py", false, none⟩

/-- A tree containing an unreadable file and a directory matched by a
content-scanning glob. -/
def dirTreeFS : RepoFS := ⟨true, true, "/repo", [unreadableBlob, pyDir]⟩

/-!
## Sanity checks on concrete trees
-/

/-- A regular, readable file entry at the repository root. -/
def file (nm : String) (content : String) : Entry := ⟨nm, nm, true, some content⟩

/-!
## General lemmas: the stable descending sort
-/

/-- The ordering the category lists are sorted by: confidence descending. -/
def confGE (a b : DetectedTechnology) : Prop := b.confidence ≤ a.confidence

/-!
## Concrete scenarios
-/

/-- The rational value of a raw score stored in tenths. -/
def rawQ (n : ℕ) : ℚ := (n : ℚ) / 10

/-- Scenario A: `requirements.txt` containing `flask==2.3.2` and `app.py`
containing `from flask import Flask`. -/
def scenarioAFS : RepoFS :=
  ⟨true, true, "/repo",
   [file "requirements.txt" "flask==2.3.2", file "app.py" "from flask import Flask"]⟩

/-- The analysis Scenario A produces (computed from the embedding). -/
def scenarioA_analysis : RepoAnalysis :=
  ⟨[⟨"python", none, ["app.py", "requirements.txt"], 10⟩],
   [⟨"flask", none, ["app.py"], 8⟩], [], [], [], [],
   [⟨"pip", none, ["requirements.txt"], 8⟩], "/repo", some "python"⟩

/-- An existing path that is not a directory (`pathlib` selectors yield no
entries beneath it). -/
def nonDirFS : RepoFS := ⟨true, false, "/repo/somefile.txt", []⟩

/-- The empty analysis of the non-directory path. -/
def nonDirAnalysis : RepoAnalysis :=
  ⟨[], [], [], [], [], [], [], "/repo/somefile.txt", none⟩

/-- A tree with a single `pytest.ini`. -/
def pytestTree : Tree := [file "pytest.ini" "[pytest]"]

/-- A tree with a single `setup.py` (matches both the `*.py` and the
`setup.py` glob triggers of the `python` rule). -/
def setupTree : Tree := [file "setup.py" "from setuptools import setup"]

/-- Three `.py` files importing flask, none called `app.py`. -/
def flaskTreeA : Tree :=
  [file "a.py" "from flask import Flask", file "b.py" "from flask import Flask",
   file "c.py" "from flask import Flask"]

/-- The tree `flaskTreeA` plus an `app.py` that also imports flask. -/
def flaskTreeB : Tree := flaskTreeA ++ [file "app.py" "from flask import Flask"]

/-!
## Claim C3 (corrected)

The claim says `scan` fails with a path-validation error whenever the path
does not exist **or is not a directory**.  The source only checks
`repo_path.exists()`; there is no `is_dir()` check, so an existing
non-directory passes validation and an (empty) analysis is returned.
-/

/-- Whether a scan outcome is the path-validation failure. -/
def isPathError : Except String RepoAnalysis → Bool
  | Except.error _ => true
  | Except.ok _ => false

/-- Holds when `after` extends `before` by pairwise-distinct elements not already
present (what a dedup-checked append loop produces). -/
def DedupAppends (before after : List String) : Prop :=
  ∃ added, after = before ++ added ∧ added.Nodup ∧ ∀ x ∈ added, x ∉ before

/-!
## Claim C4 (confirmed): sorted descending, stable ties
-/

/-- Holds when `sorted` is `unsorted` sorted by confidence descending, stably: it is
pairwise descending, and within each exact confidence value the entries
appear exactly as in `unsorted` (i.e. in catalog-declaration order). -/
def SortedStable (unsorted sorted : List DetectedTechnology) : Prop :=
  sorted.Pairwise confGE ∧
  ∀ c : ℕ, sorted.filter (fun t => t.confidence == c) =
    unsorted.filter (fun t => t.confidence == c)

/-!
## Claim C1 (confirmed): primary-language consistency
-/

/-- Holds when `m` is the first element of `l` attaining the maximal confidence:
everything before it is strictly smaller, everything after at most it. -/
def IsFirstMax (l : List DetectedTechnology) (m : DetectedTechnology) : Prop :=
  ∃ l1 l2, l = l1 ++ m :: l2 ∧ (∀ x ∈ l1, x.confidence < m.confidence) ∧
    ∀ x ∈ l2, x.confidence ≤ m.confidence

/-!
## Claim C10 (confirmed): emitted technologies record at least one file

Every code path that raises a rule's raw score also ensures the found
list is non-empty, so a positive score implies a non-empty `files`.
-/

/-- The accumulator invariant: no score without a recorded file. -/
def PosFiles (acc : Acc) : Prop := acc.2 = [] → acc.1 = 0

/-- Every technology in a category list records a non-empty `files`. -/
def FilesNonempty (l : List DetectedTechnology) : Prop := ∀ t ∈ l, t.files ≠ []

/-- No glob trigger of the rule matches any entry of the tree. -/
def NoTriggerMatch (tree : Tree) (globs : List String) : Prop :=
  ∀ pat ∈ globs, rglobMatches tree pat = []

/-- No filename regex of the rule matches any file of the tree. -/
def NoNameMatch (tree : Tree) (patterns : List String) : Prop :=
  ∀ pat ∈ patterns, ∀ e ∈ tree, (e.isFile && reSearch pat e.name) = false

/-- No declared content regex matches the content of any readable entry. -/
def NoContentMatch (tree : Tree) (cps : Option (List String)) : Prop :=
  ∀ pats, cps = some pats → ∀ e ∈ tree, ∀ content, read_text e = some content →
    (pats.any fun p => reSearch p content) = false

/-- Zero accumulated evidence for a languages rule. -/
def LangNoEvidence (tree : Tree) (r : LangRule) : Prop :=
  NoTriggerMatch tree r.files ∧ NoNameMatch tree r.patterns

/-- Zero accumulated evidence for a frameworks rule. -/
def FwNoEvidence (tree : Tree) (r : FwRule) : Prop :=
  NoTriggerMatch tree r.files ∧ NoContentMatch tree r.content_patterns

/-- Zero accumulated evidence for a test-tools rule. -/
def TestNoEvidence (tree : Tree) (r : TestRule) : Prop :=
  NoTriggerMatch tree r.files ∧ NoNameMatch tree r.patterns ∧
    NoContentMatch tree r.content_patterns

/-- Zero accumulated evidence for a build-tools rule. -/
def BuildNoEvidence (tree : Tree) (r : BuildRule) : Prop :=
  NoTriggerMatch tree r.files

/-- Zero accumulated evidence for a containers rule. -/
def ContainerNoEvidence (tree : Tree) (r : ContainerRule) : Prop :=
  NoTriggerMatch tree r.files ∧ NoContentMatch tree r.content_patterns

/-- Zero accumulated evidence for an infrastructure rule. -/
def InfraNoEvidence (tree : Tree) (r : InfraRule) : Prop :=
  NoTriggerMatch tree r.files ∧ NoContentMatch tree r.content_patterns

/-- Zero accumulated evidence for a package manager. -/
def PmNoEvidence (tree : Tree) (fls : List String) : Prop :=
  NoTriggerMatch tree fls

/-- Every emitted confidence is strictly positive and at most `1.0`. -/
def ConfBounded (l : List DetectedTechnology) : Prop :=
  ∀ t ∈ l, 0 < confQ t ∧ confQ t ≤ 1

/-- All seven categories are confidence-bounded. -/
def AllConfBounded (a : RepoAnalysis) : Prop :=
  ConfBounded a.languages ∧ ConfBounded a.frameworks ∧ ConfBounded a.test_tools ∧
  ConfBounded a.build_tools ∧ ConfBounded a.containers ∧ ConfBounded a.infrastructure ∧
  ConfBounded a.package_managers

/-- No zero-evidence rule's technology appears in any category list. -/
def ZeroEvidenceExcluded (tree : Tree) (a : RepoAnalysis) : Prop :=
  (∀ r ∈ language_rules, LangNoEvidence tree r → ∀ t ∈ a.languages, t.name ≠ r.name) ∧
  (∀ r ∈ framework_rules, FwNoEvidence tree r → ∀ t ∈ a.frameworks, t.name ≠ r.name) ∧
  (∀ r ∈ test_tool_rules, TestNoEvidence tree r → ∀ t ∈ a.test_tools, t.name ≠ r.name) ∧
  (∀ r ∈ build_tool_rules, BuildNoEvidence tree r → ∀ t ∈ a.build_tools, t.name ≠ r.name) ∧
  (∀ r ∈ container_rules, ContainerNoEvidence tree r → ∀ t ∈ a.containers, t.name ≠ r.name) ∧
  (∀ r ∈ infrastructure_rules, InfraNoEvidence tree r →
    ∀ t ∈ a.infrastructure, t.name ≠ r.name) ∧
  (∀ p ∈ pm_files, PmNoEvidence tree p.2 → ∀ t ∈ a.package_managers, t.name ≠ p.1)

/-!
## Content erasure

The file-trigger and filename-regex channels never read content, so they
are invariant under erasing all contents; the lemmas below establish this
for the unreadable-file claim.
-/

/-- Forget an entry's content (what an unreadable file looks like to the
content channels). -/
def eraseContent (e : Entry) : Entry := ⟨e.path, e.name, e.isFile, none⟩

/-!
## Lemmas and claim theorems
-/

example : reSearch "\\.py$" "app.py" = true := by decide

example : reSearch "\\.py$" "app.pyc" = false := by decide

example : reSearch "requirements.*\\.txt$" "requirements-dev.txt" = true := by decide

example : reSearch "requirements.*\\.txt$" "requirements.txt" = true := by decide

example : reSearch "requirements.*\\.txt$" "requirement.txt" = false := by decide

example : reSearch "from flask import" "from flask import Flask" = true := by decide

example : reSearch "gem [\"\\']rails[\"\\']" "gem 'rails'" = true := by decide

example : reSearch "gem [\"\\']rails[\"\\']" "gem rails" = false := by decide

example : globMatch "*.py" "setup.py" = true := by decide

example : globMatch "*.py" "setup.pyc" = false := by decide

example : globMatch "setup.py" "setup.py" = true := by decide

example : globMatch "*" "anything" = true := by decide

example : pySuffix "app.yaml" = ".yaml" := by decide

example : pySuffix ".yaml" = "" := by decide

example : pySuffix "x." = "" := by decide

example :
    _detect_languages [file "app.py" "from flask import Flask",
      file "requirements.txt" "flask==2.3.2"] =
    [⟨"python", none, ["app.py", "requirements.txt"], 10⟩] := by decide

example :
    _detect_frameworks [file "app.py" "from flask import Flask",
      file "requirements.txt" "flask==2.3.2"] =
    [⟨"flask", none, ["app.py"], 8⟩] := by decide

example :
    _detect_languages [file "setup.py" "from setuptools import setup"] =
    [⟨"python", none, ["setup.py", "setup.py"], 10⟩] := by decide

theorem mem_insertDesc {x a : DetectedTechnology} :
    ∀ {l : List DetectedTechnology}, a ∈ insertDesc x l ↔ a = x ∨ a ∈ l := by
  intro l
  induction l with
  | nil => simp [insertDesc]
  | cons y ys ih =>
      by_cases h : y.confidence ≤ x.confidence
      · simp [insertDesc, h, List.mem_cons]
      · simp only [insertDesc, if_neg h, List.mem_cons, ih]
        tauto

theorem mem_sortByConfDesc {a : DetectedTechnology} :
    ∀ {l : List DetectedTechnology}, a ∈ sortByConfDesc l ↔ a ∈ l := by
  intro l
  induction l with
  | nil => simp [sortByConfDesc]
  | cons x xs ih =>
      simp only [sortByConfDesc, mem_insertDesc, ih, List.mem_cons]

theorem pairwise_insertDesc {x : DetectedTechnology} :
    ∀ {l : List DetectedTechnology}, l.Pairwise confGE →
      (insertDesc x l).Pairwise confGE := by
  intro l
  induction l with
  | nil => simp [insertDesc, confGE]
  | cons y ys ih =>
      intro h
      rcases List.pairwise_cons.mp h with ⟨hy, hys⟩
      by_cases hc : y.confidence ≤ x.confidence
      · rw [insertDesc, if_pos hc]
        refine List.pairwise_cons.mpr ⟨?_, h⟩
        intro b hb
        rcases List.mem_cons.mp hb with rfl | hb
        · exact hc
        · exact le_trans (hy b hb) hc
      · rw [insertDesc, if_neg hc]
        refine List.pairwise_cons.mpr ⟨?_, ih hys⟩
        intro b hb
        rcases mem_insertDesc.mp hb with rfl | hb
        · exact Nat.le_of_lt (Nat.lt_of_not_le hc)
        · exact hy b hb

theorem pairwise_sortByConfDesc :
    ∀ l : List DetectedTechnology, (sortByConfDesc l).Pairwise confGE := by
  intro l
  induction l with
  | nil => simp [sortByConfDesc]
  | cons x xs ih => exact pairwise_insertDesc ih

theorem filter_conf_insertDesc (c : ℕ) (x : DetectedTechnology) :
    ∀ l, (insertDesc x l).filter (fun t => t.confidence == c) =
      if x.confidence == c then x :: l.filter (fun t => t.confidence == c)
      else l.filter (fun t => t.confidence == c) := by
  intro l
  induction l with
  | nil =>
      by_cases h : x.confidence == c <;> simp [insertDesc, h]
  | cons y ys ih =>
      by_cases hc : y.confidence ≤ x.confidence
      · by_cases hx : x.confidence == c <;>
          simp [insertDesc, hc, hx, List.filter_cons]
      · by_cases hx : x.confidence == c
        · have hyc : (y.confidence == c) = false := by
            have h1 : x.confidence = c := by simpa using hx
            have h2 : x.confidence < y.confidence := Nat.lt_of_not_le hc
            simp only [beq_eq_false_iff_ne, ne_eq]
            omega
          simp [insertDesc, hc, List.filter_cons, hyc, ih, hx]
        · simp [insertDesc, hc, List.filter_cons, ih, hx]

theorem filter_conf_sortByConfDesc (c : ℕ) :
    ∀ l : List DetectedTechnology,
      (sortByConfDesc l).filter (fun t => t.confidence == c) =
        l.filter (fun t => t.confidence == c) := by
  intro l
  induction l with
  | nil => rfl
  | cons x xs ih =>
      by_cases hx : x.confidence == c <;>
        simp [sortByConfDesc, filter_conf_insertDesc, hx, ih, List.filter_cons]

/-!
## General lemmas: left folds
-/

theorem foldl_fixed {α β : Type} (f : α → β → α) :
    ∀ (l : List β) (a : α), (∀ acc x, x ∈ l → f acc x = acc) → l.foldl f a = a := by
  intro l
  induction l with
  | nil => intro a _; rfl
  | cons x xs ih =>
      intro a h
      rw [List.foldl_cons, h a x (List.mem_cons_self x xs)]
      exact ih a (fun acc y hy => h acc y (List.mem_cons_of_mem x hy))

theorem foldl_rel {α β : Type} (R : α → α → Prop) (f g : α → β → α) :
    ∀ (l : List β) (a b : α), R a b →
      (∀ acc1 acc2 x, x ∈ l → R acc1 acc2 → R (f acc1 x) (g acc2 x)) →
      R (l.foldl f a) (l.foldl g b) := by
  intro l
  induction l with
  | nil => intro a b hab _; exact hab
  | cons x xs ih =>
      intro a b hab h
      exact ih (f a x) (g b x) (h a b x (List.mem_cons_self x xs) hab)
        (fun a1 a2 y hy => h a1 a2 y (List.mem_cons_of_mem x hy))

theorem foldl_inv {α β : Type} (P : α → Prop) (f : α → β → α) :
    ∀ (l : List β) (a : α), P a → (∀ acc x, x ∈ l → P acc → P (f acc x)) →
      P (l.foldl f a) := by
  intro l
  induction l with
  | nil => intro a ha _; exact ha
  | cons x xs ih =>
      intro a ha h
      exact ih (f a x) (h a x (List.mem_cons_self x xs) ha)
        (fun acc y hy => h acc y (List.mem_cons_of_mem x hy))

theorem foldl_conf_nondec {β : Type} (f : Acc → β → Acc) :
    ∀ (l : List β) (a : Acc), (∀ acc x, x ∈ l → acc.1 ≤ (f acc x).1) →
      a.1 ≤ (l.foldl f a).1 := by
  intro l
  induction l with
  | nil => intro a _; exact le_rfl
  | cons x xs ih =>
      intro a h
      exact le_trans (h a x (List.mem_cons_self x xs))
        (ih (f a x) (fun acc y hy => h acc y (List.mem_cons_of_mem x hy)))

/-!
## General lemmas: emission
-/

theorem emit_eq_some {n : String} {acc : Acc} {t : DetectedTechnology} :
    emit n acc = some t ↔ 0 < acc.1 ∧ t = ⟨n, none, acc.2, min acc.1 10⟩ := by
  by_cases h : 0 < acc.1
  · simp [emit, h, eq_comm]
  · simp [emit, h]

/-- Membership in a category list, reduced to the rule catalog. -/
theorem mem_detect {α : Type} (rules : List α) (nm : α → String) (A : α → Acc)
    (t : DetectedTechnology) :
    t ∈ sortByConfDesc (rules.filterMap (fun r => emit (nm r) (A r))) ↔
      ∃ r ∈ rules, 0 < (A r).1 ∧ t = ⟨nm r, none, (A r).2, min ((A r).1) 10⟩ := by
  rw [mem_sortByConfDesc, List.mem_filterMap]
  constructor
  · rintro ⟨r, hr, he⟩
    exact ⟨r, hr, (emit_eq_some.mp he).1, (emit_eq_some.mp he).2⟩
  · rintro ⟨r, hr, hpos, ht⟩
    exact ⟨r, hr, emit_eq_some.mpr ⟨hpos, ht⟩⟩

/-- C3, counterexample: an existing non-directory path does **not** fail
path validation — the scan returns a (complete, empty) analysis. -/
theorem C3_counterexample :
    nonDirFS.pathExists = true ∧ nonDirFS.isDir = false ∧
    scan_repository nonDirFS = Except.ok nonDirAnalysis := by
  refine ⟨rfl, rfl, ?_⟩
  rfl

/-- C3, amended: `scan_repository` fails with the path-validation error
iff the supplied path does not exist (an existing non-directory passes
validation); in the failure case only the error is returned, never a
partial analysis. -/
theorem C3_path_validation (fs : RepoFS) :
    isPathError (scan_repository fs) = !fs.pathExists := by
  by_cases h : fs.pathExists <;> simp [scan_repository, isPathError, h]

/-!
## Claim C8 (confirmed): Scenario A
-/

/-- C8: scanning Scenario A yields `languages` containing `python` and
`frameworks` containing `flask`, each with positive confidence. -/
theorem C8_scenarioA :
    scan_repository scenarioAFS = Except.ok scenarioA_analysis ∧
    (⟨"python", none, ["app.py", "requirements.txt"], 10⟩ : DetectedTechnology) ∈
      scenarioA_analysis.languages ∧
    (⟨"flask", none, ["app.py"], 8⟩ : DetectedTechnology) ∈
      scenarioA_analysis.frameworks ∧
    0 < confQ ⟨"python", none, ["app.py", "requirements.txt"], 10⟩ ∧
    0 < confQ ⟨"flask", none, ["app.py"], 8⟩ := by
  refine ⟨by rfl, by decide, by decide, ?_, ?_⟩ <;> norm_num [confQ]

/-!
## Claim C5 (corrected)

The claim says the file-trigger channel adds `0.3 × (number of matches)`
for language, test and build rules.  In the source only the languages
scanner does; test tools add a flat `0.6` and build tools a flat `0.8`
per non-empty trigger.
-/

/-- C5, counterexample: one `pytest.ini` match makes the pytest trigger
add `0.6`, not `0.3 × 1`. -/
theorem C5_counterexample :
    (rglobMatches pytestTree "pytest.ini").length = 1 ∧
    (testFileStep pytestTree (0, []) "pytest.ini").1 = 6 ∧
    rawQ 6 ≠ (3 : ℚ) / 10 * 1 := by
  refine ⟨by decide, by decide, ?_⟩
  norm_num [rawQ]

/-- C5, amended: per non-empty glob-trigger match set, the languages
channel adds `0.3 × (number of matches)`, and the other channels add flat
per-trigger increments — test tools `0.6`, build tools `0.8`, frameworks
without content patterns `0.5`, containers other than kubernetes `0.8`,
infrastructure without content patterns `0.7`, package managers `0.8`
(all flat increments lie between 0.5 and 0.8). -/
theorem C5_trigger_increments (tree : Tree) (acc : Acc) (pat : String)
    (h : rglobMatches tree pat ≠ []) :
    rawQ (langFileStep tree acc pat).1 =
      rawQ acc.1 + 3 / 10 * (rglobMatches tree pat).length ∧
    rawQ (testFileStep tree acc pat).1 = rawQ acc.1 + 6 / 10 ∧
    rawQ (buildFileStep tree acc pat).1 = rawQ acc.1 + 8 / 10 ∧
    (∀ r : FwRule, r.content_patterns = none →
      rawQ (fwFileStep tree r acc pat).1 = rawQ acc.1 + 5 / 10) ∧
    (∀ r : ContainerRule, (r.name == "kubernetes") = false →
      rawQ (containerFileStep tree r acc pat).1 = rawQ acc.1 + 8 / 10) ∧
    (∀ r : InfraRule, r.content_patterns = none →
      rawQ (infraFileStep tree r acc pat).1 = rawQ acc.1 + 7 / 10) ∧
    rawQ (pmFileStep tree acc pat).1 = rawQ acc.1 + 8 / 10 := by
  have hne : (rglobMatches tree pat).isEmpty = false := by
    simpa [List.isEmpty_iff] using h
  refine ⟨?_, ?_, ?_, ?_, ?_, ?_, ?_⟩
  · simp only [langFileStep, hne, Bool.false_eq_true, if_false, rawQ]
    push_cast
    ring
  · simp only [testFileStep, hne, Bool.false_eq_true, if_false, rawQ]
    push_cast
    ring
  · simp only [buildFileStep, hne, Bool.false_eq_true, if_false, rawQ]
    push_cast
    ring
  · intro r hr
    simp only [fwFileStep, hne, Bool.false_eq_true, if_false, hr, rawQ]
    push_cast
    ring
  · intro r hr
    simp only [containerFileStep, hne, Bool.false_eq_true, if_false, hr, Bool.false_and,
      Option.isSome_none, rawQ]
    push_cast
    ring
  · intro r hr
    simp only [infraFileStep, hne, Bool.false_eq_true, if_false, hr, rawQ]
    push_cast
    ring
  · simp only [pmFileStep, hne, Bool.false_eq_true, if_false, rawQ]
    push_cast
    ring

/-- C5, witness: the amended increments at the concrete one-file tree. -/
theorem C5_trigger_increments_witness :
    rawQ (langFileStep pytestTree (0, []) "pytest.ini").1 =
      rawQ 0 + 3 / 10 * (rglobMatches pytestTree "pytest.ini").length ∧
    rawQ (testFileStep pytestTree (0, []) "pytest.ini").1 = rawQ 0 + 6 / 10 ∧
    rawQ (buildFileStep pytestTree (0, []) "pytest.ini").1 = rawQ 0 + 8 / 10 ∧
    (∀ r : FwRule, r.content_patterns = none →
      rawQ (fwFileStep pytestTree r (0, []) "pytest.ini").1 = rawQ 0 + 5 / 10) ∧
    (∀ r : ContainerRule, (r.name == "kubernetes") = false →
      rawQ (containerFileStep pytestTree r (0, []) "pytest.ini").1 = rawQ 0 + 8 / 10) ∧
    (∀ r : InfraRule, r.content_patterns = none →
      rawQ (infraFileStep pytestTree r (0, []) "pytest.ini").1 = rawQ 0 + 7 / 10) ∧
    rawQ (pmFileStep pytestTree (0, []) "pytest.ini").1 = rawQ 0 + 8 / 10 :=
  C5_trigger_increments pytestTree (0, []) "pytest.ini" (by decide)

/-!
## Claim C6 (corrected)

The claim says no `files` sequence ever contains a duplicate path.  The
file-trigger channel extends `found_files` without deduplication, so a
path matching two glob triggers of one rule (here `setup.py`, matching
both `*.py` and `setup.py`) appears twice.  The dedup check exists only in
the languages filename-regex channel (and the test-tools content channel).
-/

/-- C6, counterexample: `setup.py` is recorded twice for `python`. -/
theorem C6_counterexample :
    _detect_languages setupTree = [⟨"python", none, ["setup.py", "setup.py"], 10⟩] ∧
    ¬ (["setup.py", "setup.py"] : List String).Nodup := by
  exact ⟨by decide, by decide⟩

theorem dedupAppends_refl (l : List String) : DedupAppends l l :=
  ⟨[], by simp, List.nodup_nil, by simp⟩

theorem dedupAppends_trans {a b c : List String}
    (h1 : DedupAppends a b) (h2 : DedupAppends b c) : DedupAppends a c := by
  obtain ⟨d1, rfl, hn1, hf1⟩ := h1
  obtain ⟨d2, rfl, hn2, hf2⟩ := h2
  refine ⟨d1 ++ d2, by simp, ?_, ?_⟩
  · refine List.Nodup.append hn1 hn2 ?_
    intro x hx1 hx2
    exact (hf2 x hx2) (List.mem_append_right a hx1)
  · intro x hx
    rcases List.mem_append.mp hx with hx | hx
    · exact hf1 x hx
    · exact fun hxa => (hf2 x hx) (List.mem_append_left d1 hxa)

/-- Folding a step that `DedupAppends`-extends its accumulator yields a
`DedupAppends` extension. -/
theorem foldl_dedupAppends {β : Type} (f : Acc → β → Acc)
    (hstep : ∀ acc x, DedupAppends acc.2 (f acc x).2) :
    ∀ (l : List β) (a : Acc), DedupAppends a.2 (l.foldl f a).2 := by
  intro l
  induction l with
  | nil => intro a; exact dedupAppends_refl _
  | cons x xs ih =>
      intro a
      exact dedupAppends_trans (hstep a x) (ih (f a x))

theorem langPatStep_dedupAppends (tree : Tree) (p : String) (acc : Acc) :
    DedupAppends acc.2 (langPatStep tree acc p).2 := by
  unfold langPatStep
  refine foldl_dedupAppends _ ?_ tree acc
  intro a e
  unfold langPatInner
  by_cases hc : (e.isFile && reSearch p e.name) = true
  · simp only [hc, if_true]
    by_cases hm : a.2.contains e.path
    · simp only [hm, if_true]
      exact dedupAppends_refl _
    · simp only [hm, Bool.false_eq_true, if_false]
      refine ⟨[e.path], rfl, List.nodup_singleton _, ?_⟩
      intro x hx
      rcases List.mem_singleton.mp hx with rfl
      simpa using hm
  · simp only [hc, Bool.false_eq_true, if_false]
    exact dedupAppends_refl _

/-- C6, amended: the languages filename-regex channel appends a path only
if not already present — across any run of that channel the recorded list
grows only by pairwise-distinct paths that were absent before.  (The
file-trigger channel, by contrast, extends without dedup, which is what
the counterexample exhibits.) -/
theorem C6_regex_channel_dedup (tree : Tree) (ps : List String) (acc : Acc) :
    DedupAppends acc.2 ((ps.foldl (langPatStep tree) acc).2) := by
  refine foldl_dedupAppends _ ?_ ps acc
  intro a p
  exact langPatStep_dedupAppends tree p a

/-!
## Unpacking a successful scan
-/

theorem scan_ok_elim {fs : RepoFS} {a : RepoAnalysis}
    (h : scan_repository fs = Except.ok a) :
    fs.pathExists = true ∧
    a = ⟨_detect_languages fs.entries, _detect_frameworks fs.entries,
         _detect_test_tools fs.entries, _detect_build_tools fs.entries,
         _detect_containers fs.entries, _detect_infrastructure fs.entries,
         _detect_package_managers fs.entries, fs.resolved,
         (pyMaxByConf (_detect_languages fs.entries)).map (fun t => t.name)⟩ := by
  by_cases hp : fs.pathExists = true
  · refine ⟨hp, ?_⟩
    unfold scan_repository at h
    rw [hp] at h
    simp only [Bool.not_true, Bool.false_eq_true, if_false] at h
    exact (Except.ok.injEq _ _).mp h |>.symm
  · exfalso
    unfold scan_repository at h
    rw [Bool.not_eq_true] at hp
    rw [hp] at h
    simp at h

theorem sortedStable_sortByConfDesc (l : List DetectedTechnology) :
    SortedStable l (sortByConfDesc l) :=
  ⟨pairwise_sortByConfDesc l, fun c => filter_conf_sortByConfDesc c l⟩

/-- C4: every category list of a scan is sorted by confidence descending,
and entries of exactly equal confidence appear in catalog-declaration
order (the order of the corresponding unsorted list). -/
theorem C4_sorted_stable (fs : RepoFS) (a : RepoAnalysis)
    (h : scan_repository fs = Except.ok a) :
    SortedStable (langUnsorted fs.entries) a.languages ∧
    SortedStable (fwUnsorted fs.entries) a.frameworks ∧
    SortedStable (testUnsorted fs.entries) a.test_tools ∧
    SortedStable (buildUnsorted fs.entries) a.build_tools ∧
    SortedStable (containerUnsorted fs.entries) a.containers ∧
    SortedStable (infraUnsorted fs.entries) a.infrastructure ∧
    SortedStable (pmUnsorted fs.entries) a.package_managers := by
  obtain ⟨-, rfl⟩ := scan_ok_elim h
  exact ⟨sortedStable_sortByConfDesc _, sortedStable_sortByConfDesc _,
    sortedStable_sortByConfDesc _, sortedStable_sortByConfDesc _,
    sortedStable_sortByConfDesc _, sortedStable_sortByConfDesc _,
    sortedStable_sortByConfDesc _⟩

/-- C4, witness: the sortedness/stability conclusion at Scenario A. -/
theorem C4_sorted_stable_witness :
    SortedStable (langUnsorted scenarioAFS.entries) scenarioA_analysis.languages ∧
    SortedStable (fwUnsorted scenarioAFS.entries) scenarioA_analysis.frameworks ∧
    SortedStable (testUnsorted scenarioAFS.entries) scenarioA_analysis.test_tools ∧
    SortedStable (buildUnsorted scenarioAFS.entries) scenarioA_analysis.build_tools ∧
    SortedStable (containerUnsorted scenarioAFS.entries) scenarioA_analysis.containers ∧
    SortedStable (infraUnsorted scenarioAFS.entries) scenarioA_analysis.infrastructure ∧
    SortedStable (pmUnsorted scenarioAFS.entries) scenarioA_analysis.package_managers :=
  C4_sorted_stable scenarioAFS scenarioA_analysis (by rfl)

/-- Python's strict-`max` fold returns the first maximal element. -/
theorem pyMax_foldl_isFirstMax :
    ∀ (ts : List DetectedTechnology) (t : DetectedTechnology),
      IsFirstMax (t :: ts)
        (ts.foldl (fun best x => if best.confidence < x.confidence then x else best) t) := by
  intro ts
  induction ts with
  | nil => intro t; exact ⟨[], [], rfl, by simp, by simp⟩
  | cons x ts' ih =>
      intro t
      rw [List.foldl_cons]
      by_cases hc : t.confidence < x.confidence
      · rw [if_pos hc]
        obtain ⟨l1, l2, heq, h1, h2⟩ := ih x
        refine ⟨t :: l1, l2, by rw [List.cons_append, heq], ?_, h2⟩
        intro y hy
        rcases List.mem_cons.mp hy with rfl | hy
        · cases l1 with
          | nil =>
              have hx : x = ts'.foldl
                  (fun best x => if best.confidence < x.confidence then x else best) x := by
                simpa using congrArg (fun l => l.headI) heq
              rw [← hx]
              exact hc
          | cons b l1' =>
              obtain rfl : x = b := by
                simpa using congrArg (fun l => l.headI) heq
              exact lt_trans hc (h1 x (List.mem_cons_self _ _))
        · exact h1 y hy
      · rw [if_neg hc]
        obtain ⟨l1, l2, heq, h1, h2⟩ := ih t
        cases l1 with
        | nil =>
            have ht : t = ts'.foldl
                (fun best x => if best.confidence < x.confidence then x else best) t := by
              simpa using congrArg (fun l => l.headI) heq
            have hts' : ts' = l2 := by
              simpa using congrArg (fun l => l.tail) heq
            refine ⟨[], x :: ts', ?_, by simp, ?_⟩
            · simp only [List.nil_append]
              rw [← ht]
            · intro y hy
              rcases List.mem_cons.mp hy with rfl | hy
              · rw [← ht]
                exact Nat.le_of_not_lt hc
              · rw [hts'] at hy
                exact h2 y hy
        | cons b l1' =>
            obtain rfl : t = b := by
              simpa using congrArg (fun l => l.headI) heq
            have hts' : ts' = l1' ++ ts'.foldl
                (fun best x => if best.confidence < x.confidence then x else best) t :: l2 := by
              simpa using congrArg (fun l => l.tail) heq
            have htlt : t.confidence < (ts'.foldl
                (fun best x => if best.confidence < x.confidence then x else best) t).confidence :=
              h1 t (List.mem_cons_self _ _)
            refine ⟨t :: x :: l1', l2, ?_, ?_, h2⟩
            · simpa using congrArg (fun l => t :: x :: l) hts'
            · intro y hy
              rcases List.mem_cons.mp hy with rfl | hy
              · exact htlt
              rcases List.mem_cons.mp hy with rfl | hy
              · exact lt_of_le_of_lt (Nat.le_of_not_lt hc) htlt
              · exact h1 y (List.mem_cons_of_mem _ hy)

theorem pyMaxByConf_isFirstMax {l : List DetectedTechnology} {m : DetectedTechnology}
    (h : pyMaxByConf l = some m) : IsFirstMax l m := by
  cases l with
  | nil => simp [pyMaxByConf] at h
  | cons t ts =>
      have hm : ts.foldl
          (fun best x => if best.confidence < x.confidence then x else best) t = m := by
        simpa [pyMaxByConf] using h
      have := pyMax_foldl_isFirstMax ts t
      rwa [hm] at this

/-- C1: `primary_language` is `none` iff `languages` is empty; otherwise
it is the name of the first entry of `languages` attaining the maximal
confidence (the value of the strict-`max` reduction in iteration order). -/
theorem C1_primary_language (fs : RepoFS) (a : RepoAnalysis)
    (h : scan_repository fs = Except.ok a) :
    (a.primary_language = none ↔ a.languages = []) ∧
    (a.languages ≠ [] →
      ∃ m, IsFirstMax a.languages m ∧ a.primary_language = some m.name) := by
  obtain ⟨-, rfl⟩ := scan_ok_elim h
  dsimp only
  constructor
  · cases hL : _detect_languages fs.entries with
    | nil => simp [pyMaxByConf, hL]
    | cons t ts => simp [pyMaxByConf, hL]
  · intro hne
    cases hL : _detect_languages fs.entries with
    | nil => exact absurd hL hne
    | cons t ts =>
        refine ⟨ts.foldl (fun best x => if best.confidence < x.confidence then x else best) t,
          ?_, ?_⟩
        · exact pyMax_foldl_isFirstMax ts t
        · simp [pyMaxByConf, hL]

/-- C1, witness: the primary-language conclusion at Scenario A. -/
theorem C1_primary_language_witness :
    (scenarioA_analysis.primary_language = none ↔ scenarioA_analysis.languages = []) ∧
    (scenarioA_analysis.languages ≠ [] →
      ∃ m, IsFirstMax scenarioA_analysis.languages m ∧
        scenarioA_analysis.primary_language = some m.name) :=
  C1_primary_language scenarioAFS scenarioA_analysis (by rfl)

theorem pathsOf_ne_nil {ms : List Entry} {k : ℕ} (h : ms ≠ []) (hk : k ≠ 0) :
    pathsOf ms k ≠ [] := by
  cases ms with
  | nil => exact absurd rfl h
  | cons m ms' =>
      cases k with
      | zero => exact absurd rfl hk
      | succ k' => simp [pathsOf]

/-- A step that either returns its accumulator unchanged or returns a
non-empty file list preserves `PosFiles`. -/
theorem posFiles_of_step {acc acc' : Acc}
    (h : acc' = acc ∨ acc'.2 ≠ []) (hp : PosFiles acc) : PosFiles acc' := by
  rcases h with rfl | h
  · exact hp
  · intro h2
    exact absurd h2 h

theorem langFileStep_posFiles (tree : Tree) (acc : Acc) (pat : String)
    (hp : PosFiles acc) : PosFiles (langFileStep tree acc pat) := by
  refine posFiles_of_step ?_ hp
  unfold langFileStep
  by_cases hm : (rglobMatches tree pat).isEmpty = true
  · exact Or.inl (by rw [if_pos hm])
  · refine Or.inr ?_
    rw [if_neg hm]
    have : pathsOf (rglobMatches tree pat) 5 ≠ [] :=
      pathsOf_ne_nil (by simpa [List.isEmpty_iff] using hm) (by omega)
    simp [List.append_eq_nil]
    intro _
    exact this

theorem langPatInner_posFiles (p : String) (a : Acc) (e : Entry)
    (hp : PosFiles a) : PosFiles (langPatInner p a e) := by
  refine posFiles_of_step ?_ hp
  unfold langPatInner
  by_cases hc : (e.isFile && reSearch p e.name) = true
  · rw [if_pos hc]
    refine Or.inr ?_
    by_cases hm : a.2.contains e.path
    · rw [if_pos hm]
      intro h2
      rw [h2] at hm
      simp at hm
    · rw [if_neg hm]
      simp [List.append_eq_nil]
  · exact Or.inl (by rw [if_neg hc])

theorem langAccum_posFiles (tree : Tree) (r : LangRule) : PosFiles (langAccum tree r) := by
  unfold langAccum
  refine foldl_inv PosFiles _ _ _ ?_ ?_
  · refine foldl_inv PosFiles _ _ _ (by intro h; rfl) ?_
    intro acc x _ hp
    exact langFileStep_posFiles tree acc x hp
  · intro acc p _ hp
    unfold langPatStep
    refine foldl_inv PosFiles _ _ _ hp ?_
    intro a e _ hpa
    exact langPatInner_posFiles p a e hpa

theorem testFileStep_posFiles (tree : Tree) (acc : Acc) (pat : String)
    (hp : PosFiles acc) : PosFiles (testFileStep tree acc pat) := by
  refine posFiles_of_step ?_ hp
  unfold testFileStep
  by_cases hm : (rglobMatches tree pat).isEmpty = true
  · exact Or.inl (by rw [if_pos hm])
  · refine Or.inr ?_
    rw [if_neg hm]
    have : pathsOf (rglobMatches tree pat) 3 ≠ [] :=
      pathsOf_ne_nil (by simpa [List.isEmpty_iff] using hm) (by omega)
    simp [List.append_eq_nil]
    intro _
    exact this

theorem buildFileStep_posFiles (tree : Tree) (acc : Acc) (pat : String)
    (hp : PosFiles acc) : PosFiles (buildFileStep tree acc pat) := by
  refine posFiles_of_step ?_ hp
  unfold buildFileStep
  by_cases hm : (rglobMatches tree pat).isEmpty = true
  · exact Or.inl (by rw [if_pos hm])
  · refine Or.inr ?_
    rw [if_neg hm]
    have : pathsOf (rglobMatches tree pat) 3 ≠ [] :=
      pathsOf_ne_nil (by simpa [List.isEmpty_iff] using hm) (by omega)
    simp [List.append_eq_nil]
    intro _
    exact this

theorem pmFileStep_posFiles (tree : Tree) (acc : Acc) (pat : String)
    (hp : PosFiles acc) : PosFiles (pmFileStep tree acc pat) := by
  refine posFiles_of_step ?_ hp
  unfold pmFileStep
  by_cases hm : (rglobMatches tree pat).isEmpty = true
  · exact Or.inl (by rw [if_pos hm])
  · refine Or.inr ?_
    rw [if_neg hm]
    have : pathsOf (rglobMatches tree pat) 3 ≠ [] :=
      pathsOf_ne_nil (by simpa [List.isEmpty_iff] using hm) (by omega)
    simp [List.append_eq_nil]
    intro _
    exact this

theorem fwFileInner_posFiles (pats : List String) (a : Acc) (m : Entry)
    (hp : PosFiles a) : PosFiles (fwFileInner pats a m) := by
  refine posFiles_of_step ?_ hp
  unfold fwFileInner
  cases read_text m with
  | none => exact Or.inl rfl
  | some content =>
      dsimp only
      by_cases hc : (pats.any fun p => reSearch p content) = true
      · rw [if_pos hc]
        refine Or.inr ?_
        simp [List.append_eq_nil]
      · exact Or.inl (by rw [if_neg hc])

theorem fwContentInner_posFiles (pats : List String) (a : Acc) (m : Entry)
    (hp : PosFiles a) : PosFiles (fwContentInner pats a m) := by
  refine posFiles_of_step ?_ hp
  unfold fwContentInner
  cases read_text m with
  | none => exact Or.inl rfl
  | some content =>
      dsimp only
      by_cases hc : (pats.any fun p => reSearch p content) = true
      · rw [if_pos hc]
        refine Or.inr ?_
        simp [List.append_eq_nil]
      · exact Or.inl (by rw [if_neg hc])

theorem testPatInner_posFiles (p : String) (a : Acc) (e : Entry)
    (hp : PosFiles a) : PosFiles (testPatInner p a e) := by
  refine posFiles_of_step ?_ hp
  unfold testPatInner
  by_cases hc : (e.isFile && reSearch p e.name) = true
  · rw [if_pos hc]
    refine Or.inr ?_
    simp [List.append_eq_nil]
  · exact Or.inl (by rw [if_neg hc])

theorem testContentInner_posFiles (pats : List String) (a : Acc) (m : Entry)
    (hp : PosFiles a) : PosFiles (testContentInner pats a m) := by
  refine posFiles_of_step ?_ hp
  unfold testContentInner
  cases read_text m with
  | none => exact Or.inl rfl
  | some content =>
      dsimp only
      by_cases hc : (pats.any fun p => reSearch p content) = true
      · rw [if_pos hc]
        refine Or.inr ?_
        by_cases hm : a.2.contains m.path
        · rw [if_pos hm]
          intro h2
          rw [h2] at hm
          simp at hm
        · rw [if_neg hm]
          simp [List.append_eq_nil]
      · exact Or.inl (by rw [if_neg hc])

theorem k8sInner_posFiles (pats : List String) (a : Acc) (m : Entry)
    (hp : PosFiles a) : PosFiles (k8sInner pats a m) := by
  refine posFiles_of_step ?_ hp
  unfold k8sInner
  by_cases hs : (pySuffix m.name == ".yaml" || pySuffix m.name == ".yml") = true
  · rw [if_pos hs]
    cases read_text m with
    | none => exact Or.inl rfl
    | some content =>
        dsimp only
        by_cases hc : (pats.any fun p => reSearch p content) = true
        · rw [if_pos hc]
          refine Or.inr ?_
          simp [List.append_eq_nil]
        · exact Or.inl (by rw [if_neg hc])
  · exact Or.inl (by rw [if_neg hs])

theorem infraFileInner_posFiles (pats : List String) (a : Acc) (m : Entry)
    (hp : PosFiles a) : PosFiles (infraFileInner pats a m) := by
  refine posFiles_of_step ?_ hp
  unfold infraFileInner
  cases read_text m with
  | none => exact Or.inl rfl
  | some content =>
      dsimp only
      by_cases hc : (pats.any fun p => reSearch p content) = true
      · rw [if_pos hc]
        refine Or.inr ?_
        simp [List.append_eq_nil]
      · exact Or.inl (by rw [if_neg hc])

theorem fwFileStep_posFiles (tree : Tree) (r : FwRule) (acc : Acc) (pat : String)
    (hp : PosFiles acc) : PosFiles (fwFileStep tree r acc pat) := by
  unfold fwFileStep
  by_cases hm : (rglobMatches tree pat).isEmpty = true
  · rw [if_pos hm]
    exact hp
  · rw [if_neg hm]
    cases r.content_patterns with
    | none =>
        refine posFiles_of_step (Or.inr ?_) hp
        have : pathsOf (rglobMatches tree pat) 3 ≠ [] :=
          pathsOf_ne_nil (by simpa [List.isEmpty_iff] using hm) (by omega)
        simp [List.append_eq_nil]
        intro _
        exact this
    | some pats =>
        refine foldl_inv PosFiles _ _ _ hp ?_
        intro a m _ hpa
        exact fwFileInner_posFiles pats a m hpa

theorem fwAccum_posFiles (tree : Tree) (r : FwRule) : PosFiles (fwAccum tree r) := by
  unfold fwAccum
  have h1 : PosFiles (r.files.foldl (fwFileStep tree r) (0, [])) := by
    refine foldl_inv PosFiles _ _ _ (by intro h; rfl) ?_
    intro acc x _ hp
    exact fwFileStep_posFiles tree r acc x hp
  cases r.content_patterns with
  | none => exact h1
  | some pats =>
      dsimp only
      by_cases he : (r.files.foldl (fwFileStep tree r) (0, [])).2.isEmpty = true
      · rw [if_pos he]
        refine foldl_inv PosFiles _ _ _ h1 ?_
        intro acc ext _ hp
        unfold fwContentStep
        refine foldl_inv PosFiles _ _ _ hp ?_
        intro a m _ hpa
        exact fwContentInner_posFiles pats a m hpa
      · rw [if_neg he]
        exact h1

theorem testAccum_posFiles (tree : Tree) (r : TestRule) : PosFiles (testAccum tree r) := by
  unfold testAccum
  have h1 : PosFiles (r.files.foldl (testFileStep tree) (0, [])) := by
    refine foldl_inv PosFiles _ _ _ (by intro h; rfl) ?_
    intro acc x _ hp
    exact testFileStep_posFiles tree acc x hp
  have h2 : PosFiles (r.patterns.foldl (testPatStep tree)
      (r.files.foldl (testFileStep tree) (0, []))) := by
    refine foldl_inv PosFiles _ _ _ h1 ?_
    intro acc p _ hp
    unfold testPatStep
    refine foldl_inv PosFiles _ _ _ hp ?_
    intro a e _ hpa
    exact testPatInner_posFiles p a e hpa
  cases r.content_patterns with
  | none => exact h2
  | some pats =>
      refine foldl_inv PosFiles _ _ _ h2 ?_
      intro acc ext _ hp
      unfold testContentStep
      refine foldl_inv PosFiles _ _ _ hp ?_
      intro a m _ hpa
      exact testContentInner_posFiles pats a m hpa

theorem buildAccum_posFiles (tree : Tree) (r : BuildRule) : PosFiles (buildAccum tree r) := by
  unfold buildAccum
  refine foldl_inv PosFiles _ _ _ (by intro h; rfl) ?_
  intro acc x _ hp
  exact buildFileStep_posFiles tree acc x hp

theorem containerFileStep_posFiles (tree : Tree) (r : ContainerRule) (acc : Acc) (pat : String)
    (hp : PosFiles acc) : PosFiles (containerFileStep tree r acc pat) := by
  unfold containerFileStep
  by_cases hm : (rglobMatches tree pat).isEmpty = true
  · rw [if_pos hm]
    exact hp
  · rw [if_neg hm]
    by_cases hk : (r.name == "kubernetes" && r.content_patterns.isSome) = true
    · rw [if_pos hk]
      refine foldl_inv PosFiles _ _ _ hp ?_
      intro a m _ hpa
      exact k8sInner_posFiles _ a m hpa
    · rw [if_neg hk]
      refine posFiles_of_step (Or.inr ?_) hp
      have : pathsOf (rglobMatches tree pat) 3 ≠ [] :=
        pathsOf_ne_nil (by simpa [List.isEmpty_iff] using hm) (by omega)
      simp [List.append_eq_nil]
      intro _
      exact this

theorem containerAccum_posFiles (tree : Tree) (r : ContainerRule) :
    PosFiles (containerAccum tree r) := by
  unfold containerAccum
  refine foldl_inv PosFiles _ _ _ (by intro h; rfl) ?_
  intro acc x _ hp
  exact containerFileStep_posFiles tree r acc x hp

theorem infraFileStep_posFiles (tree : Tree) (r : InfraRule) (acc : Acc) (pat : String)
    (hp : PosFiles acc) : PosFiles (infraFileStep tree r acc pat) := by
  unfold infraFileStep
  by_cases hm : (rglobMatches tree pat).isEmpty = true
  · rw [if_pos hm]
    exact hp
  · rw [if_neg hm]
    cases r.content_patterns with
    | none =>
        refine posFiles_of_step (Or.inr ?_) hp
        have : pathsOf (rglobMatches tree pat) 3 ≠ [] :=
          pathsOf_ne_nil (by simpa [List.isEmpty_iff] using hm) (by omega)
        simp [List.append_eq_nil]
        intro _
        exact this
    | some pats =>
        refine foldl_inv PosFiles _ _ _ hp ?_
        intro a m _ hpa
        exact infraFileInner_posFiles pats a m hpa

theorem infraAccum_posFiles (tree : Tree) (r : InfraRule) : PosFiles (infraAccum tree r) := by
  unfold infraAccum
  refine foldl_inv PosFiles _ _ _ (by intro h; rfl) ?_
  intro acc x _ hp
  exact infraFileStep_posFiles tree r acc x hp

theorem pmAccum_posFiles (tree : Tree) (fls : List String) : PosFiles (pmAccum tree fls) := by
  unfold pmAccum
  refine foldl_inv PosFiles _ _ _ (by intro h; rfl) ?_
  intro acc x _ hp
  exact pmFileStep_posFiles tree acc x hp

theorem filesNonempty_detect {α : Type} (rules : List α) (nm : α → String) (A : α → Acc)
    (hA : ∀ r, PosFiles (A r)) :
    FilesNonempty (sortByConfDesc (rules.filterMap (fun r => emit (nm r) (A r)))) := by
  intro t ht
  obtain ⟨r, _, hpos, rfl⟩ := (mem_detect rules nm A t).mp ht
  intro hnil
  have := hA r hnil
  omega

/-- C10: every emitted technology's `files` list is non-empty in every
category of a successful scan. -/
theorem C10_files_nonempty (fs : RepoFS) (a : RepoAnalysis)
    (h : scan_repository fs = Except.ok a) :
    FilesNonempty a.languages ∧ FilesNonempty a.frameworks ∧
    FilesNonempty a.test_tools ∧ FilesNonempty a.build_tools ∧
    FilesNonempty a.containers ∧ FilesNonempty a.infrastructure ∧
    FilesNonempty a.package_managers := by
  obtain ⟨-, rfl⟩ := scan_ok_elim h
  refine ⟨?_, ?_, ?_, ?_, ?_, ?_, ?_⟩
  · exact filesNonempty_detect language_rules (fun r => r.name) (langAccum fs.entries)
      (langAccum_posFiles fs.entries)
  · exact filesNonempty_detect framework_rules (fun r => r.name) (fwAccum fs.entries)
      (fwAccum_posFiles fs.entries)
  · exact filesNonempty_detect test_tool_rules (fun r => r.name) (testAccum fs.entries)
      (testAccum_posFiles fs.entries)
  · exact filesNonempty_detect build_tool_rules (fun r => r.name) (buildAccum fs.entries)
      (buildAccum_posFiles fs.entries)
  · exact filesNonempty_detect container_rules (fun r => r.name) (containerAccum fs.entries)
      (containerAccum_posFiles fs.entries)
  · exact filesNonempty_detect infrastructure_rules (fun r => r.name) (infraAccum fs.entries)
      (infraAccum_posFiles fs.entries)
  · exact filesNonempty_detect pm_files (fun p => p.1) (fun p => pmAccum fs.entries p.2)
      (fun p => pmAccum_posFiles fs.entries p.2)

/-- C10, witness: the conclusion at Scenario A. -/
theorem C10_files_nonempty_witness :
    FilesNonempty scenarioA_analysis.languages ∧ FilesNonempty scenarioA_analysis.frameworks ∧
    FilesNonempty scenarioA_analysis.test_tools ∧ FilesNonempty scenarioA_analysis.build_tools ∧
    FilesNonempty scenarioA_analysis.containers ∧
    FilesNonempty scenarioA_analysis.infrastructure ∧
    FilesNonempty scenarioA_analysis.package_managers :=
  C10_files_nonempty scenarioAFS scenarioA_analysis (by rfl)

/-!
## Claim C2 (confirmed): confidence bounds and zero-evidence exclusion
-/

/-- An entry of a match list lies in the tree. -/
theorem mem_rglobMatches {tree : Tree} {pat : String} {e : Entry}
    (h : e ∈ rglobMatches tree pat) : e ∈ tree :=
  (List.mem_filter.mp h).1

theorem langAccum_zero {tree : Tree} {r : LangRule} (h : LangNoEvidence tree r) :
    langAccum tree r = (0, []) := by
  unfold langAccum
  have h1 : r.files.foldl (langFileStep tree) (0, []) = (0, []) := by
    refine foldl_fixed _ _ _ ?_
    intro acc pat hp
    simp [langFileStep, h.1 pat hp]
  rw [h1]
  refine foldl_fixed _ _ _ ?_
  intro acc p hp
  unfold langPatStep
  refine foldl_fixed _ _ _ ?_
  intro a e he
  simp [langPatInner, h.2 p hp e he]

theorem fwAccum_zero {tree : Tree} {r : FwRule} (h : FwNoEvidence tree r) :
    fwAccum tree r = (0, []) := by
  unfold fwAccum
  have h1 : r.files.foldl (fwFileStep tree r) (0, []) = (0, []) := by
    refine foldl_fixed _ _ _ ?_
    intro acc pat hp
    simp [fwFileStep, h.1 pat hp]
  rw [h1]
  cases hc : r.content_patterns with
  | none => rfl
  | some pats =>
      dsimp only
      rw [if_pos (show (([] : List String)).isEmpty = true from rfl)]
      refine foldl_fixed _ _ _ ?_
      intro acc ext _
      unfold fwContentStep
      refine foldl_fixed _ _ _ ?_
      intro a m hm
      unfold fwContentInner
      cases hr : read_text m with
      | none => rfl
      | some content =>
          dsimp only
          simp [h.2 pats hc m (mem_rglobMatches hm) content hr]

theorem testAccum_zero {tree : Tree} {r : TestRule} (h : TestNoEvidence tree r) :
    testAccum tree r = (0, []) := by
  have h1 : r.files.foldl (testFileStep tree) (0, []) = (0, []) := by
    refine foldl_fixed _ _ _ ?_
    intro acc pat hp
    simp [testFileStep, h.1 pat hp]
  have h2 : r.patterns.foldl (testPatStep tree) (0, []) = (0, []) := by
    refine foldl_fixed _ _ _ ?_
    intro acc p hp
    unfold testPatStep
    refine foldl_fixed _ _ _ ?_
    intro a e he
    simp [testPatInner, h.2.1 p hp e he]
  unfold testAccum
  dsimp only
  rw [h1, h2]
  cases hc : r.content_patterns with
  | none => rfl
  | some pats =>
      dsimp only
      refine foldl_fixed _ _ _ ?_
      intro acc ext _
      unfold testContentStep
      refine foldl_fixed _ _ _ ?_
      intro a m hm
      unfold testContentInner
      cases hr : read_text m with
      | none => rfl
      | some content =>
          dsimp only
          simp [h.2.2 pats hc m (mem_rglobMatches hm) content hr]

theorem buildAccum_zero {tree : Tree} {r : BuildRule} (h : BuildNoEvidence tree r) :
    buildAccum tree r = (0, []) := by
  unfold buildAccum
  refine foldl_fixed _ _ _ ?_
  intro acc pat hp
  simp [buildFileStep, h pat hp]

theorem containerAccum_zero {tree : Tree} {r : ContainerRule}
    (h : ContainerNoEvidence tree r) : containerAccum tree r = (0, []) := by
  unfold containerAccum
  refine foldl_fixed _ _ _ ?_
  intro acc pat hp
  simp [containerFileStep, h.1 pat hp]

theorem infraAccum_zero {tree : Tree} {r : InfraRule} (h : InfraNoEvidence tree r) :
    infraAccum tree r = (0, []) := by
  unfold infraAccum
  refine foldl_fixed _ _ _ ?_
  intro acc pat hp
  simp [infraFileStep, h.1 pat hp]

theorem pmAccum_zero {tree : Tree} {fls : List String} (h : PmNoEvidence tree fls) :
    pmAccum tree fls = (0, []) := by
  unfold pmAccum
  refine foldl_fixed _ _ _ ?_
  intro acc pat hp
  simp [pmFileStep, h pat hp]

/-- Each catalog's technology names are unique (name determines rule). -/
theorem language_rule_names_inj :
    ∀ r ∈ language_rules, ∀ r' ∈ language_rules, r.name = r'.name → r = r' := by decide

theorem framework_rule_names_inj :
    ∀ r ∈ framework_rules, ∀ r' ∈ framework_rules, r.name = r'.name → r = r' := by decide

theorem test_rule_names_inj :
    ∀ r ∈ test_tool_rules, ∀ r' ∈ test_tool_rules, r.name = r'.name → r = r' := by decide

theorem build_rule_names_inj :
    ∀ r ∈ build_tool_rules, ∀ r' ∈ build_tool_rules, r.name = r'.name → r = r' := by decide

theorem container_rule_names_inj :
    ∀ r ∈ container_rules, ∀ r' ∈ container_rules, r.name = r'.name → r = r' := by decide

theorem infra_rule_names_inj :
    ∀ r ∈ infrastructure_rules, ∀ r' ∈ infrastructure_rules, r.name = r'.name → r = r' := by
  decide

theorem pm_names_inj :
    ∀ p ∈ pm_files, ∀ p' ∈ pm_files, p.1 = p'.1 → p = p' := by decide

/-- If a rule's accumulator is zero, its name is absent from the emitted
category list (given unique names in the catalog). -/
theorem zero_excluded_detect {α : Type} (rules : List α) (nm : α → String) (A : α → Acc)
    (hinj : ∀ r ∈ rules, ∀ r' ∈ rules, nm r = nm r' → r = r')
    {r : α} (hr : r ∈ rules) (hz : (A r).1 = 0) :
    ∀ t ∈ sortByConfDesc (rules.filterMap (fun r => emit (nm r) (A r))), t.name ≠ nm r := by
  intro t ht heq
  obtain ⟨r', hr', hpos, rfl⟩ := (mem_detect rules nm A t).mp ht
  have hrr : r' = r := hinj r' hr' r hr heq
  rw [hrr] at hpos
  omega

theorem confBounded_detect {α : Type} (rules : List α) (nm : α → String) (A : α → Acc) :
    ConfBounded (sortByConfDesc (rules.filterMap (fun r => emit (nm r) (A r)))) := by
  intro t ht
  obtain ⟨r, _, hpos, rfl⟩ := (mem_detect rules nm A t).mp ht
  constructor
  · have h1 : 0 < min (A r).1 10 := lt_min hpos (by norm_num)
    have h2 : (0 : ℚ) < ((min (A r).1 10 : ℕ) : ℚ) := by exact_mod_cast h1
    exact div_pos h2 (by norm_num)
  · have h1 : min (A r).1 10 ≤ 10 := min_le_right _ _
    have h2 : ((min (A r).1 10 : ℕ) : ℚ) ≤ 10 := by exact_mod_cast h1
    rw [confQ, div_le_one (by norm_num : (0 : ℚ) < 10)]
    exact h2

/-- C2: in every category of a successful scan, each emitted confidence
satisfies `0 < confidence ≤ 1.0`, and a rule with zero accumulated
evidence (no trigger, filename-pattern, or content match anywhere in the
tree) never appears in any category list. -/
theorem C2_bounds_and_zero_evidence (fs : RepoFS) (a : RepoAnalysis)
    (h : scan_repository fs = Except.ok a) :
    AllConfBounded a ∧ ZeroEvidenceExcluded fs.entries a := by
  obtain ⟨-, rfl⟩ := scan_ok_elim h
  constructor
  · exact ⟨confBounded_detect _ _ _, confBounded_detect _ _ _, confBounded_detect _ _ _,
      confBounded_detect _ _ _, confBounded_detect _ _ _, confBounded_detect _ _ _,
      confBounded_detect _ _ _⟩
  · refine ⟨?_, ?_, ?_, ?_, ?_, ?_, ?_⟩
    · intro r hr hz
      exact zero_excluded_detect language_rules (fun r => r.name) (langAccum fs.entries)
        language_rule_names_inj hr (by rw [langAccum_zero hz])
    · intro r hr hz
      exact zero_excluded_detect framework_rules (fun r => r.name) (fwAccum fs.entries)
        framework_rule_names_inj hr (by rw [fwAccum_zero hz])
    · intro r hr hz
      exact zero_excluded_detect test_tool_rules (fun r => r.name) (testAccum fs.entries)
        test_rule_names_inj hr (by rw [testAccum_zero hz])
    · intro r hr hz
      exact zero_excluded_detect build_tool_rules (fun r => r.name) (buildAccum fs.entries)
        build_rule_names_inj hr (by rw [buildAccum_zero hz])
    · intro r hr hz
      exact zero_excluded_detect container_rules (fun r => r.name) (containerAccum fs.entries)
        container_rule_names_inj hr (by rw [containerAccum_zero hz])
    · intro r hr hz
      exact zero_excluded_detect infrastructure_rules (fun r => r.name) (infraAccum fs.entries)
        infra_rule_names_inj hr (by rw [infraAccum_zero hz])
    · intro p hp hz
      exact zero_excluded_detect pm_files (fun p => p.1) (fun p => pmAccum fs.entries p.2)
        pm_names_inj hp (by dsimp only; rw [pmAccum_zero hz])

/-- C2, witness: the conclusion at Scenario A. -/
theorem C2_bounds_and_zero_evidence_witness :
    AllConfBounded scenarioA_analysis ∧
    ZeroEvidenceExcluded scenarioAFS.entries scenarioA_analysis :=
  C2_bounds_and_zero_evidence scenarioAFS scenarioA_analysis (by rfl)

theorem isEmpty_map {α β : Type} (f : α → β) (l : List α) :
    (l.map f).isEmpty = l.isEmpty := by
  cases l <;> rfl

theorem rglobMatches_map_eraseContent (tree : Tree) (pat : String) :
    rglobMatches (tree.map eraseContent) pat = (rglobMatches tree pat).map eraseContent := by
  unfold rglobMatches
  rw [List.filter_map]
  rfl

theorem pathsOf_map_eraseContent (ms : List Entry) (k : ℕ) :
    pathsOf (ms.map eraseContent) k = pathsOf ms k := by
  unfold pathsOf
  rw [← List.map_take, List.map_map]
  rfl

theorem langFileStep_eraseContent (tree : Tree) (acc : Acc) (pat : String) :
    langFileStep (tree.map eraseContent) acc pat = langFileStep tree acc pat := by
  simp only [langFileStep, rglobMatches_map_eraseContent, isEmpty_map, List.length_map,
    pathsOf_map_eraseContent]

theorem testFileStep_eraseContent (tree : Tree) (acc : Acc) (pat : String) :
    testFileStep (tree.map eraseContent) acc pat = testFileStep tree acc pat := by
  simp only [testFileStep, rglobMatches_map_eraseContent, isEmpty_map,
    pathsOf_map_eraseContent]

theorem buildFileStep_eraseContent (tree : Tree) (acc : Acc) (pat : String) :
    buildFileStep (tree.map eraseContent) acc pat = buildFileStep tree acc pat := by
  simp only [buildFileStep, rglobMatches_map_eraseContent, isEmpty_map,
    pathsOf_map_eraseContent]

theorem pmFileStep_eraseContent (tree : Tree) (acc : Acc) (pat : String) :
    pmFileStep (tree.map eraseContent) acc pat = pmFileStep tree acc pat := by
  simp only [pmFileStep, rglobMatches_map_eraseContent, isEmpty_map,
    pathsOf_map_eraseContent]

theorem langPatStep_eraseContent (tree : Tree) (acc : Acc) (p : String) :
    langPatStep (tree.map eraseContent) acc p = langPatStep tree acc p := by
  unfold langPatStep
  rw [List.foldl_map]
  rfl

theorem testPatStep_eraseContent (tree : Tree) (acc : Acc) (p : String) :
    testPatStep (tree.map eraseContent) acc p = testPatStep tree acc p := by
  unfold testPatStep
  rw [List.foldl_map]
  rfl

theorem foldl_ext {α β : Type} (f g : α → β → α) (h : ∀ a x, f a x = g a x) :
    ∀ (l : List β) (a : α), l.foldl f a = l.foldl g a := by
  intro l
  induction l with
  | nil => intro a; rfl
  | cons x xs ih =>
      intro a
      rw [List.foldl_cons, List.foldl_cons, h a x]
      exact ih (g a x)

theorem langAccum_eraseContent (tree : Tree) (r : LangRule) :
    langAccum (tree.map eraseContent) r = langAccum tree r := by
  unfold langAccum
  rw [foldl_ext _ _ (fun a x => langFileStep_eraseContent tree a x)]
  exact foldl_ext _ _ (fun a x => langPatStep_eraseContent tree a x) _ _

theorem buildAccum_eraseContent (tree : Tree) (r : BuildRule) :
    buildAccum (tree.map eraseContent) r = buildAccum tree r := by
  unfold buildAccum
  exact foldl_ext _ _ (fun a x => buildFileStep_eraseContent tree a x) _ _

theorem pmAccum_eraseContent (tree : Tree) (fls : List String) :
    pmAccum (tree.map eraseContent) fls = pmAccum tree fls := by
  unfold pmAccum
  exact foldl_ext _ _ (fun a x => pmFileStep_eraseContent tree a x) _ _

theorem detect_languages_eraseContent (tree : Tree) :
    _detect_languages (tree.map eraseContent) = _detect_languages tree := by
  simp only [_detect_languages, langUnsorted, langAccum_eraseContent]

theorem detect_build_tools_eraseContent (tree : Tree) :
    _detect_build_tools (tree.map eraseContent) = _detect_build_tools tree := by
  simp only [_detect_build_tools, buildUnsorted, buildAccum_eraseContent]

theorem detect_package_managers_eraseContent (tree : Tree) :
    _detect_package_managers (tree.map eraseContent) = _detect_package_managers tree := by
  simp only [_detect_package_managers, pmUnsorted, pmAccum_eraseContent]

theorem rglobMatches_cons (e : Entry) (tree : Tree) (pat : String) :
    rglobMatches (e :: tree) pat =
      if globMatch pat e.name then e :: rglobMatches tree pat
      else rglobMatches tree pat := by
  simp [rglobMatches, List.filter_cons]

theorem fwContentInner_skip {pats : List String} {a : Acc} {e2 : Entry}
    (he : e2.content = none) : fwContentInner pats a e2 = a := by
  unfold fwContentInner read_text
  rw [he]

theorem fwFileInner_skip {pats : List String} {a : Acc} {e2 : Entry}
    (he : e2.content = none) : fwFileInner pats a e2 = a := by
  unfold fwFileInner read_text
  rw [he]

theorem testContentInner_skip {pats : List String} {a : Acc} {e2 : Entry}
    (he : e2.content = none) : testContentInner pats a e2 = a := by
  unfold testContentInner read_text
  rw [he]

theorem infraFileInner_skip {pats : List String} {a : Acc} {e2 : Entry}
    (he : e2.content = none) : infraFileInner pats a e2 = a := by
  unfold infraFileInner read_text
  rw [he]

theorem k8sInner_skip {pats : List String} {a : Acc} {e2 : Entry}
    (he : e2.content = none) : k8sInner pats a e2 = a := by
  unfold k8sInner read_text
  rw [he]
  by_cases hs : (pySuffix e2.name == ".yaml" || pySuffix e2.name == ".yml") = true
  · rw [if_pos hs]
  · rw [if_neg hs]

theorem fwContentStep_skip_unreadable {e2 : Entry} (he : e2.content = none)
    (tree : Tree) (pats : List String) (acc : Acc) (ext : String) :
    fwContentStep (e2 :: tree) pats acc ext = fwContentStep tree pats acc ext := by
  unfold fwContentStep
  rw [rglobMatches_cons]
  by_cases hg : globMatch ("*" ++ ext) e2.name = true
  · rw [if_pos hg, List.foldl_cons, fwContentInner_skip he]
  · rw [if_neg hg]

theorem testContentStep_skip_unreadable {e2 : Entry} (he : e2.content = none)
    (tree : Tree) (pats : List String) (acc : Acc) (ext : String) :
    testContentStep (e2 :: tree) pats acc ext = testContentStep tree pats acc ext := by
  unfold testContentStep
  rw [rglobMatches_cons]
  by_cases hg : globMatch ("*" ++ ext) e2.name = true
  · rw [if_pos hg, List.foldl_cons, testContentInner_skip he]
  · rw [if_neg hg]

/-!
## Claim C7 (corrected): monotonic evidence

Adding one more matching file can **decrease** a framework's confidence:
the content fallback channel only runs when the file-trigger channel
recorded no files, so a new `app.py` importing flask switches flask from
three fallback hits (`0.9`) to one trigger hit (`0.8`).  For the other
six categories every channel is monotone under appending an entry.
-/

theorem rglobMatches_append (t1 t2 : Tree) (pat : String) :
    rglobMatches (t1 ++ t2) pat = rglobMatches t1 pat ++ rglobMatches t2 pat := by
  simp [rglobMatches, List.filter_append]

theorem isEmpty_append_false {α : Type} {l1 : List α} (l2 : List α)
    (h : l1.isEmpty = false) : (l1 ++ l2).isEmpty = false := by
  cases l1 with
  | nil => simp at h
  | cons x xs => rfl

/-- Conf-monotone folds: a pointwise conf-monotone step yields a
conf-monotone fold. -/
theorem foldl_inner_mono {β : Type} (f : Acc → β → Acc)
    (hmono : ∀ (a1 a2 : Acc) (x : β), a1.1 ≤ a2.1 → (f a1 x).1 ≤ (f a2 x).1)
    (l : List β) {a1 a2 : Acc} (h : a1.1 ≤ a2.1) :
    (l.foldl f a1).1 ≤ (l.foldl f a2).1 :=
  foldl_rel (fun a b : Acc => a.1 ≤ b.1) f f l a1 a2 h (fun x y z _ => hmono x y z)

/-- A conf-nondecreasing fold only grows over a longer list. -/
theorem foldl_append_conf_ge {β : Type} (f : Acc → β → Acc)
    (hnondec : ∀ (a : Acc) (x : β), a.1 ≤ (f a x).1) (l1 l2 : List β) (a : Acc) :
    (l1.foldl f a).1 ≤ ((l1 ++ l2).foldl f a).1 := by
  rw [List.foldl_append]
  exact foldl_conf_nondec f l2 _ (fun acc x _ => hnondec acc x)

theorem langPatInner_conf_nondec (p : String) (a : Acc) (e : Entry) :
    a.1 ≤ (langPatInner p a e).1 := by
  unfold langPatInner
  by_cases hc : (e.isFile && reSearch p e.name) = true
  · rw [if_pos hc]
    exact Nat.le_add_right _ _
  · rw [if_neg hc]

theorem langPatInner_conf_mono (p : String) {a1 a2 : Acc} (e : Entry) (h : a1.1 ≤ a2.1) :
    (langPatInner p a1 e).1 ≤ (langPatInner p a2 e).1 := by
  unfold langPatInner
  by_cases hc : (e.isFile && reSearch p e.name) = true
  · rw [if_pos hc, if_pos hc]
    exact Nat.add_le_add_right h 2
  · rw [if_neg hc, if_neg hc]
    exact h

theorem testPatInner_conf_nondec (p : String) (a : Acc) (e : Entry) :
    a.1 ≤ (testPatInner p a e).1 := by
  unfold testPatInner
  by_cases hc : (e.isFile && reSearch p e.name) = true
  · rw [if_pos hc]
    exact Nat.le_add_right _ _
  · rw [if_neg hc]

theorem testPatInner_conf_mono (p : String) {a1 a2 : Acc} (e : Entry) (h : a1.1 ≤ a2.1) :
    (testPatInner p a1 e).1 ≤ (testPatInner p a2 e).1 := by
  unfold testPatInner
  by_cases hc : (e.isFile && reSearch p e.name) = true
  · rw [if_pos hc, if_pos hc]
    exact Nat.add_le_add_right h 4
  · rw [if_neg hc, if_neg hc]
    exact h

theorem testContentInner_conf_nondec (pats : List String) (a : Acc) (m : Entry) :
    a.1 ≤ (testContentInner pats a m).1 := by
  unfold testContentInner
  cases read_text m with
  | none => exact le_rfl
  | some content =>
      dsimp only
      by_cases hc : (pats.any fun p => reSearch p content) = true
      · rw [if_pos hc]
        exact Nat.le_add_right _ _
      · rw [if_neg hc]

theorem testContentInner_conf_mono (pats : List String) {a1 a2 : Acc} (m : Entry)
    (h : a1.1 ≤ a2.1) : (testContentInner pats a1 m).1 ≤ (testContentInner pats a2 m).1 := by
  unfold testContentInner
  cases read_text m with
  | none => exact h
  | some content =>
      dsimp only
      by_cases hc : (pats.any fun p => reSearch p content) = true
      · rw [if_pos hc, if_pos hc]
        exact Nat.add_le_add_right h 3
      · rw [if_neg hc, if_neg hc]
        exact h

theorem k8sInner_conf_nondec (pats : List String) (a : Acc) (m : Entry) :
    a.1 ≤ (k8sInner pats a m).1 := by
  unfold k8sInner
  by_cases hs : (pySuffix m.name == ".yaml" || pySuffix m.name == ".yml") = true
  · rw [if_pos hs]
    cases read_text m with
    | none => exact le_rfl
    | some content =>
        dsimp only
        by_cases hc : (pats.any fun p => reSearch p content) = true
        · rw [if_pos hc]
          exact Nat.le_add_right _ _
        · rw [if_neg hc]
  · rw [if_neg hs]

theorem k8sInner_conf_mono (pats : List String) {a1 a2 : Acc} (m : Entry)
    (h : a1.1 ≤ a2.1) : (k8sInner pats a1 m).1 ≤ (k8sInner pats a2 m).1 := by
  unfold k8sInner
  by_cases hs : (pySuffix m.name == ".yaml" || pySuffix m.name == ".yml") = true
  · rw [if_pos hs, if_pos hs]
    cases read_text m with
    | none => exact h
    | some content =>
        dsimp only
        by_cases hc : (pats.any fun p => reSearch p content) = true
        · rw [if_pos hc, if_pos hc]
          exact Nat.add_le_add_right h 7
        · rw [if_neg hc, if_neg hc]
          exact h
  · rw [if_neg hs, if_neg hs]
    exact h

theorem infraFileInner_conf_nondec (pats : List String) (a : Acc) (m : Entry) :
    a.1 ≤ (infraFileInner pats a m).1 := by
  unfold infraFileInner
  cases read_text m with
  | none => exact le_rfl
  | some content =>
      dsimp only
      by_cases hc : (pats.any fun p => reSearch p content) = true
      · rw [if_pos hc]
        exact Nat.le_add_right _ _
      · rw [if_neg hc]

theorem infraFileInner_conf_mono (pats : List String) {a1 a2 : Acc} (m : Entry)
    (h : a1.1 ≤ a2.1) : (infraFileInner pats a1 m).1 ≤ (infraFileInner pats a2 m).1 := by
  unfold infraFileInner
  cases read_text m with
  | none => exact h
  | some content =>
      dsimp only
      by_cases hc : (pats.any fun p => reSearch p content) = true
      · rw [if_pos hc, if_pos hc]
        exact Nat.add_le_add_right h 8
      · rw [if_neg hc, if_neg hc]
        exact h

theorem langFileStep_mono (tree : Tree) (e : Entry) {a1 a2 : Acc} (h : a1.1 ≤ a2.1)
    (pat : String) :
    (langFileStep tree a1 pat).1 ≤ (langFileStep (tree ++ [e]) a2 pat).1 := by
  unfold langFileStep
  rw [rglobMatches_append]
  by_cases hm : (rglobMatches tree pat).isEmpty = true
  · rw [if_pos hm]
    by_cases hm2 : (rglobMatches tree pat ++ rglobMatches [e] pat).isEmpty = true
    · rw [if_pos hm2]
      exact h
    · rw [if_neg hm2]
      exact le_trans h (Nat.le_add_right _ _)
  · have hm' : (rglobMatches tree pat).isEmpty = false := by
      rwa [Bool.not_eq_true] at hm
    have hne2 : ¬ (rglobMatches tree pat ++ rglobMatches [e] pat).isEmpty = true := by
      rw [isEmpty_append_false _ hm']
      exact Bool.false_ne_true
    rw [if_neg hm, if_neg hne2]
    dsimp only
    rw [List.length_append]
    have hlen : (rglobMatches tree pat).length ≤
        (rglobMatches tree pat).length + (rglobMatches [e] pat).length :=
      Nat.le_add_right _ _
    omega

theorem testFileStep_mono (tree : Tree) (e : Entry) {a1 a2 : Acc} (h : a1.1 ≤ a2.1)
    (pat : String) :
    (testFileStep tree a1 pat).1 ≤ (testFileStep (tree ++ [e]) a2 pat).1 := by
  unfold testFileStep
  rw [rglobMatches_append]
  by_cases hm : (rglobMatches tree pat).isEmpty = true
  · rw [if_pos hm]
    by_cases hm2 : (rglobMatches tree pat ++ rglobMatches [e] pat).isEmpty = true
    · rw [if_pos hm2]
      exact h
    · rw [if_neg hm2]
      exact le_trans h (Nat.le_add_right _ _)
  · have hm' : (rglobMatches tree pat).isEmpty = false := by
      rwa [Bool.not_eq_true] at hm
    have hne2 : ¬ (rglobMatches tree pat ++ rglobMatches [e] pat).isEmpty = true := by
      rw [isEmpty_append_false _ hm']
      exact Bool.false_ne_true
    rw [if_neg hm, if_neg hne2]
    exact Nat.add_le_add_right h 6

theorem buildFileStep_mono (tree : Tree) (e : Entry) {a1 a2 : Acc} (h : a1.1 ≤ a2.1)
    (pat : String) :
    (buildFileStep tree a1 pat).1 ≤ (buildFileStep (tree ++ [e]) a2 pat).1 := by
  unfold buildFileStep
  rw [rglobMatches_append]
  by_cases hm : (rglobMatches tree pat).isEmpty = true
  · rw [if_pos hm]
    by_cases hm2 : (rglobMatches tree pat ++ rglobMatches [e] pat).isEmpty = true
    · rw [if_pos hm2]
      exact h
    · rw [if_neg hm2]
      exact le_trans h (Nat.le_add_right _ _)
  · have hm' : (rglobMatches tree pat).isEmpty = false := by
      rwa [Bool.not_eq_true] at hm
    have hne2 : ¬ (rglobMatches tree pat ++ rglobMatches [e] pat).isEmpty = true := by
      rw [isEmpty_append_false _ hm']
      exact Bool.false_ne_true
    rw [if_neg hm, if_neg hne2]
    exact Nat.add_le_add_right h 8

theorem pmFileStep_mono (tree : Tree) (e : Entry) {a1 a2 : Acc} (h : a1.1 ≤ a2.1)
    (pat : String) :
    (pmFileStep tree a1 pat).1 ≤ (pmFileStep (tree ++ [e]) a2 pat).1 := by
  unfold pmFileStep
  rw [rglobMatches_append]
  by_cases hm : (rglobMatches tree pat).isEmpty = true
  · rw [if_pos hm]
    by_cases hm2 : (rglobMatches tree pat ++ rglobMatches [e] pat).isEmpty = true
    · rw [if_pos hm2]
      exact h
    · rw [if_neg hm2]
      exact le_trans h (Nat.le_add_right _ _)
  · have hm' : (rglobMatches tree pat).isEmpty = false := by
      rwa [Bool.not_eq_true] at hm
    have hne2 : ¬ (rglobMatches tree pat ++ rglobMatches [e] pat).isEmpty = true := by
      rw [isEmpty_append_false _ hm']
      exact Bool.false_ne_true
    rw [if_neg hm, if_neg hne2]
    exact Nat.add_le_add_right h 8

theorem containerFileStep_mono (tree : Tree) (e : Entry) (r : ContainerRule) {a1 a2 : Acc}
    (h : a1.1 ≤ a2.1) (pat : String) :
    (containerFileStep tree r a1 pat).1 ≤ (containerFileStep (tree ++ [e]) r a2 pat).1 := by
  unfold containerFileStep
  rw [rglobMatches_append]
  by_cases hm : (rglobMatches tree pat).isEmpty = true
  · rw [if_pos hm]
    by_cases hm2 : (rglobMatches tree pat ++ rglobMatches [e] pat).isEmpty = true
    · rw [if_pos hm2]
      exact h
    · rw [if_neg hm2]
      by_cases hk : (r.name == "kubernetes" && r.content_patterns.isSome) = true
      · rw [if_pos hk]
        exact le_trans h (foldl_conf_nondec _ _ _
          (fun acc x _ => k8sInner_conf_nondec _ acc x))
      · rw [if_neg hk]
        exact le_trans h (Nat.le_add_right _ _)
  · have hm' : (rglobMatches tree pat).isEmpty = false := by
      rwa [Bool.not_eq_true] at hm
    have hne2 : ¬ (rglobMatches tree pat ++ rglobMatches [e] pat).isEmpty = true := by
      rw [isEmpty_append_false _ hm']
      exact Bool.false_ne_true
    rw [if_neg hm, if_neg hne2]
    by_cases hk : (r.name == "kubernetes" && r.content_patterns.isSome) = true
    · rw [if_pos hk, if_pos hk]
      exact le_trans
        (foldl_inner_mono _ (fun x y z hz => k8sInner_conf_mono _ z hz) _ h)
        (foldl_append_conf_ge _ (fun a x => k8sInner_conf_nondec _ a x) _ _ _)
    · rw [if_neg hk, if_neg hk]
      exact Nat.add_le_add_right h 8

theorem infraFileStep_mono (tree : Tree) (e : Entry) (r : InfraRule) {a1 a2 : Acc}
    (h : a1.1 ≤ a2.1) (pat : String) :
    (infraFileStep tree r a1 pat).1 ≤ (infraFileStep (tree ++ [e]) r a2 pat).1 := by
  unfold infraFileStep
  rw [rglobMatches_append]
  by_cases hm : (rglobMatches tree pat).isEmpty = true
  · rw [if_pos hm]
    by_cases hm2 : (rglobMatches tree pat ++ rglobMatches [e] pat).isEmpty = true
    · rw [if_pos hm2]
      exact h
    · rw [if_neg hm2]
      cases r.content_patterns with
      | none => exact le_trans h (Nat.le_add_right _ _)
      | some pats =>
          exact le_trans h (foldl_conf_nondec _ _ _
            (fun acc x _ => infraFileInner_conf_nondec pats acc x))
  · have hm' : (rglobMatches tree pat).isEmpty = false := by
      rwa [Bool.not_eq_true] at hm
    have hne2 : ¬ (rglobMatches tree pat ++ rglobMatches [e] pat).isEmpty = true := by
      rw [isEmpty_append_false _ hm']
      exact Bool.false_ne_true
    rw [if_neg hm, if_neg hne2]
    cases r.content_patterns with
    | none => exact Nat.add_le_add_right h 7
    | some pats =>
        exact le_trans
          (foldl_inner_mono _ (fun x y z hz => infraFileInner_conf_mono pats z hz) _ h)
          (foldl_append_conf_ge _ (fun a x => infraFileInner_conf_nondec pats a x) _ _ _)

theorem langPatStep_mono (tree : Tree) (e : Entry) {a1 a2 : Acc} (h : a1.1 ≤ a2.1)
    (p : String) :
    (langPatStep tree a1 p).1 ≤ (langPatStep (tree ++ [e]) a2 p).1 := by
  unfold langPatStep
  exact le_trans
    (foldl_inner_mono _ (fun x y z hz => langPatInner_conf_mono p z hz) tree h)
    (foldl_append_conf_ge _ (fun a x => langPatInner_conf_nondec p a x) tree [e] a2)

theorem testPatStep_mono (tree : Tree) (e : Entry) {a1 a2 : Acc} (h : a1.1 ≤ a2.1)
    (p : String) :
    (testPatStep tree a1 p).1 ≤ (testPatStep (tree ++ [e]) a2 p).1 := by
  unfold testPatStep
  exact le_trans
    (foldl_inner_mono _ (fun x y z hz => testPatInner_conf_mono p z hz) tree h)
    (foldl_append_conf_ge _ (fun a x => testPatInner_conf_nondec p a x) tree [e] a2)

theorem testContentStep_mono (tree : Tree) (e : Entry) (pats : List String) {a1 a2 : Acc}
    (h : a1.1 ≤ a2.1) (ext : String) :
    (testContentStep tree pats a1 ext).1 ≤ (testContentStep (tree ++ [e]) pats a2 ext).1 := by
  unfold testContentStep
  rw [rglobMatches_append]
  exact le_trans
    (foldl_inner_mono _ (fun x y z hz => testContentInner_conf_mono pats z hz) _ h)
    (foldl_append_conf_ge _ (fun a x => testContentInner_conf_nondec pats a x) _ _ _)

theorem langAccum_mono (tree : Tree) (e : Entry) (r : LangRule) :
    (langAccum tree r).1 ≤ (langAccum (tree ++ [e]) r).1 := by
  unfold langAccum
  refine foldl_rel (fun a b : Acc => a.1 ≤ b.1) _ _ r.patterns _ _ ?_ ?_
  · refine foldl_rel (fun a b : Acc => a.1 ≤ b.1) _ _ r.files _ _ le_rfl ?_
    intro acc1 acc2 x _ hx
    exact langFileStep_mono tree e hx x
  · intro acc1 acc2 p _ hx
    exact langPatStep_mono tree e hx p

theorem testAccum_mono (tree : Tree) (e : Entry) (r : TestRule) :
    (testAccum tree r).1 ≤ (testAccum (tree ++ [e]) r).1 := by
  unfold testAccum
  dsimp only
  have h1 : (r.files.foldl (testFileStep tree) (0, [])).1 ≤
      (r.files.foldl (testFileStep (tree ++ [e])) (0, [])).1 := by
    refine foldl_rel (fun a b : Acc => a.1 ≤ b.1) _ _ r.files _ _ le_rfl ?_
    intro acc1 acc2 x _ hx
    exact testFileStep_mono tree e hx x
  have h2 : (r.patterns.foldl (testPatStep tree)
        (r.files.foldl (testFileStep tree) (0, []))).1 ≤
      (r.patterns.foldl (testPatStep (tree ++ [e]))
        (r.files.foldl (testFileStep (tree ++ [e])) (0, []))).1 := by
    refine foldl_rel (fun a b : Acc => a.1 ≤ b.1) _ _ r.patterns _ _ h1 ?_
    intro acc1 acc2 p _ hx
    exact testPatStep_mono tree e hx p
  cases r.content_patterns with
  | none => exact h2
  | some pats =>
      dsimp only
      refine foldl_rel (fun a b : Acc => a.1 ≤ b.1) _ _ (test_file_extensions r.language) _ _ h2 ?_
      intro acc1 acc2 ext _ hx
      exact testContentStep_mono tree e pats hx ext

theorem buildAccum_mono (tree : Tree) (e : Entry) (r : BuildRule) :
    (buildAccum tree r).1 ≤ (buildAccum (tree ++ [e]) r).1 := by
  unfold buildAccum
  refine foldl_rel (fun a b : Acc => a.1 ≤ b.1) _ _ r.files _ _ le_rfl ?_
  intro acc1 acc2 x _ hx
  exact buildFileStep_mono tree e hx x

theorem containerAccum_mono (tree : Tree) (e : Entry) (r : ContainerRule) :
    (containerAccum tree r).1 ≤ (containerAccum (tree ++ [e]) r).1 := by
  unfold containerAccum
  refine foldl_rel (fun a b : Acc => a.1 ≤ b.1) _ _ r.files _ _ le_rfl ?_
  intro acc1 acc2 x _ hx
  exact containerFileStep_mono tree e r hx x

theorem infraAccum_mono (tree : Tree) (e : Entry) (r : InfraRule) :
    (infraAccum tree r).1 ≤ (infraAccum (tree ++ [e]) r).1 := by
  unfold infraAccum
  refine foldl_rel (fun a b : Acc => a.1 ≤ b.1) _ _ r.files _ _ le_rfl ?_
  intro acc1 acc2 x _ hx
  exact infraFileStep_mono tree e r hx x

theorem pmAccum_mono (tree : Tree) (e : Entry) (fls : List String) :
    (pmAccum tree fls).1 ≤ (pmAccum (tree ++ [e]) fls).1 := by
  unfold pmAccum
  refine foldl_rel (fun a b : Acc => a.1 ≤ b.1) _ _ fls _ _ le_rfl ?_
  intro acc1 acc2 x _ hx
  exact pmFileStep_mono tree e hx x

/-- Raw-score monotonicity lifts to the emitted category lists. -/
theorem detect_mono_entry {α : Type} (rules : List α) (nm : α → String) (A B : α → Acc)
    (hAB : ∀ r, (A r).1 ≤ (B r).1) :
    ∀ t ∈ sortByConfDesc (rules.filterMap (fun r => emit (nm r) (A r))),
      ∃ t' ∈ sortByConfDesc (rules.filterMap (fun r => emit (nm r) (B r))),
        t'.name = t.name ∧ t.confidence ≤ t'.confidence := by
  intro t ht
  obtain ⟨r, hr, hpos, rfl⟩ := (mem_detect rules nm A t).mp ht
  refine ⟨⟨nm r, none, (B r).2, min (B r).1 10⟩, ?_, rfl, ?_⟩
  · exact (mem_detect rules nm B _).mpr ⟨r, hr, lt_of_lt_of_le hpos (hAB r), rfl⟩
  · exact min_le_min (hAB r) le_rfl

/-- C7, counterexample: `app.py` matches the flask rule's glob trigger and
its content matches the flask content pattern, yet adding it drops flask's
confidence from 0.9 to 0.8 (the fallback channel is disabled). -/
theorem C7_counterexample :
    globMatch "app.py" "app.py" = true ∧
    reSearch "from flask import" "from flask import Flask" = true ∧
    (⟨"flask", none, ["a.py", "b.py", "c.py"], 9⟩ : DetectedTechnology) ∈
      _detect_frameworks flaskTreeA ∧
    (⟨"flask", none, ["app.py"], 8⟩ : DetectedTechnology) ∈
      _detect_frameworks flaskTreeB ∧
    (8 : ℕ) < 9 := by
  decide

/-- C7, amended: outside the frameworks category, extending the tree by
one entry (in particular one more file matching the technology's rule)
never decreases a detected technology's confidence and never removes it
from its category list: every detected technology reappears, same name,
with at least its old confidence. -/
theorem C7_monotonic_outside_frameworks (tree : Tree) (e : Entry) :
    (∀ t ∈ _detect_languages tree, ∃ t' ∈ _detect_languages (tree ++ [e]),
      t'.name = t.name ∧ t.confidence ≤ t'.confidence) ∧
    (∀ t ∈ _detect_test_tools tree, ∃ t' ∈ _detect_test_tools (tree ++ [e]),
      t'.name = t.name ∧ t.confidence ≤ t'.confidence) ∧
    (∀ t ∈ _detect_build_tools tree, ∃ t' ∈ _detect_build_tools (tree ++ [e]),
      t'.name = t.name ∧ t.confidence ≤ t'.confidence) ∧
    (∀ t ∈ _detect_containers tree, ∃ t' ∈ _detect_containers (tree ++ [e]),
      t'.name = t.name ∧ t.confidence ≤ t'.confidence) ∧
    (∀ t ∈ _detect_infrastructure tree, ∃ t' ∈ _detect_infrastructure (tree ++ [e]),
      t'.name = t.name ∧ t.confidence ≤ t'.confidence) ∧
    (∀ t ∈ _detect_package_managers tree, ∃ t' ∈ _detect_package_managers (tree ++ [e]),
      t'.name = t.name ∧ t.confidence ≤ t'.confidence) := by
  refine ⟨?_, ?_, ?_, ?_, ?_, ?_⟩
  · exact detect_mono_entry language_rules (fun r => r.name) (langAccum tree)
      (langAccum (tree ++ [e])) (langAccum_mono tree e)
  · exact detect_mono_entry test_tool_rules (fun r => r.name) (testAccum tree)
      (testAccum (tree ++ [e])) (testAccum_mono tree e)
  · exact detect_mono_entry build_tool_rules (fun r => r.name) (buildAccum tree)
      (buildAccum (tree ++ [e])) (buildAccum_mono tree e)
  · exact detect_mono_entry container_rules (fun r => r.name) (containerAccum tree)
      (containerAccum (tree ++ [e])) (containerAccum_mono tree e)
  · exact detect_mono_entry infrastructure_rules (fun r => r.name) (infraAccum tree)
      (infraAccum (tree ++ [e])) (infraAccum_mono tree e)
  · exact detect_mono_entry pm_files (fun p => p.1) (fun p => pmAccum tree p.2)
      (fun p => pmAccum (tree ++ [e]) p.2) (fun p => pmAccum_mono tree e p.2)

/-- C7, witness: the amended conclusion at the concrete pytest tree
extended by one more `pytest.ini`. -/
theorem C7_monotonic_outside_frameworks_witness :
    (∀ t ∈ _detect_languages pytestTree,
      ∃ t' ∈ _detect_languages (pytestTree ++ [file "sub/pytest.ini" "[pytest]"]),
      t'.name = t.name ∧ t.confidence ≤ t'.confidence) ∧
    (∀ t ∈ _detect_test_tools pytestTree,
      ∃ t' ∈ _detect_test_tools (pytestTree ++ [file "sub/pytest.ini" "[pytest]"]),
      t'.name = t.name ∧ t.confidence ≤ t'.confidence) ∧
    (∀ t ∈ _detect_build_tools pytestTree,
      ∃ t' ∈ _detect_build_tools (pytestTree ++ [file "sub/pytest.ini" "[pytest]"]),
      t'.name = t.name ∧ t.confidence ≤ t'.confidence) ∧
    (∀ t ∈ _detect_containers pytestTree,
      ∃ t' ∈ _detect_containers (pytestTree ++ [file "sub/pytest.ini" "[pytest]"]),
      t'.name = t.name ∧ t.confidence ≤ t'.confidence) ∧
    (∀ t ∈ _detect_infrastructure pytestTree,
      ∃ t' ∈ _detect_infrastructure (pytestTree ++ [file "sub/pytest.ini" "[pytest]"]),
      t'.name = t.name ∧ t.confidence ≤ t'.confidence) ∧
    (∀ t ∈ _detect_package_managers pytestTree,
      ∃ t' ∈ _detect_package_managers (pytestTree ++ [file "sub/pytest.ini" "[pytest]"]),
      t'.name = t.name ∧ t.confidence ≤ t'.confidence) :=
  C7_monotonic_outside_frameworks pytestTree (file "sub/pytest.ini" "[pytest]")

/-!
## Claim C9 (corrected): unreadable files and the IsADirectoryError abort

An unreadable / non-UTF8 regular file is caught per read and skipped by
every content channel, and the file/name channels never read content; on
a tree of regular files the fallible scan therefore completes and
coincides with the total one.  The claim's totality is nevertheless
false: a directory whose name matches a content-scanning glob is read
with no prior file check, `Path.read_text()` raises `IsADirectoryError`,
`except (UnicodeDecodeError, PermissionError)` does not catch it, and the
whole scan aborts.
-/

/-- A short-circuiting fold whose step always succeeds computes the
ordinary fold. -/
theorem foldlE_eq_ok {α β : Type} (f : α → β → Except String α) (g : α → β → α) :
    ∀ (l : List β), (∀ a x, x ∈ l → f a x = Except.ok (g a x)) →
      ∀ a, foldlE f l a = Except.ok (l.foldl g a) := by
  intro l
  induction l with
  | nil => intro _ a; rfl
  | cons x xs ih =>
      intro h a
      simp only [foldlE]
      rw [h a x (List.mem_cons_self x xs)]
      rw [List.foldl_cons]
      exact ih (fun a2 y hy => h a2 y (List.mem_cons_of_mem x hy)) (g a x)

/-- On a regular file the fallible framework file-trigger inner step
succeeds with the total one's value. -/
theorem fwFileInnerE_file {pats : List String} {a : Acc} {m : Entry}
    (hf : m.isFile = true) :
    fwFileInnerE pats a m = Except.ok (fwFileInner pats a m) := by
  cases hc : m.content with
  | none => simp [fwFileInnerE, fwFileInner, read_textE, read_text, hf, hc]
  | some c => simp [fwFileInnerE, fwFileInner, read_textE, read_text, hf, hc]

/-- On a regular file the fallible framework fallback inner step succeeds
with the total one's value. -/
theorem fwContentInnerE_file {pats : List String} {a : Acc} {m : Entry}
    (hf : m.isFile = true) :
    fwContentInnerE pats a m = Except.ok (fwContentInner pats a m) := by
  cases hc : m.content with
  | none => simp [fwContentInnerE, fwContentInner, read_textE, read_text, hf, hc]
  | some c => simp [fwContentInnerE, fwContentInner, read_textE, read_text, hf, hc]

/-- On a regular file the fallible test-tool content inner step succeeds
with the total one's value. -/
theorem testContentInnerE_file {pats : List String} {a : Acc} {m : Entry}
    (hf : m.isFile = true) :
    testContentInnerE pats a m = Except.ok (testContentInner pats a m) := by
  cases hc : m.content with
  | none => simp [testContentInnerE, testContentInner, read_textE, read_text, hf, hc]
  | some c => simp [testContentInnerE, testContentInner, read_textE, read_text, hf, hc]

/-- On a regular file the fallible kubernetes inner step succeeds with
the total one's value. -/
theorem k8sInnerE_file {pats : List String} {a : Acc} {m : Entry}
    (hf : m.isFile = true) :
    k8sInnerE pats a m = Except.ok (k8sInner pats a m) := by
  unfold k8sInnerE k8sInner
  by_cases hs : (pySuffix m.name == ".yaml" || pySuffix m.name == ".yml") = true
  · rw [if_pos hs, if_pos hs]
    cases hc : m.content with
    | none => simp [read_textE, read_text, hf, hc]
    | some c => simp [read_textE, read_text, hf, hc]
  · rw [if_neg hs, if_neg hs]

/-- On a regular file the fallible infrastructure inner step succeeds
with the total one's value. -/
theorem infraFileInnerE_file {pats : List String} {a : Acc} {m : Entry}
    (hf : m.isFile = true) :
    infraFileInnerE pats a m = Except.ok (infraFileInner pats a m) := by
  cases hc : m.content with
  | none => simp [infraFileInnerE, infraFileInner, read_textE, read_text, hf, hc]
  | some c => simp [infraFileInnerE, infraFileInner, read_textE, read_text, hf, hc]

/-- An unreadable regular file is caught and skipped by the framework
file-trigger channel. -/
theorem fwFileInnerE_caught {pats : List String} {a : Acc} {e2 : Entry}
    (hf : e2.isFile = true) (he : e2.content = none) :
    fwFileInnerE pats a e2 = Except.ok a := by
  rw [fwFileInnerE_file hf, fwFileInner_skip he]

/-- An unreadable regular file is caught and skipped by the framework
fallback channel. -/
theorem fwContentInnerE_caught {pats : List String} {a : Acc} {e2 : Entry}
    (hf : e2.isFile = true) (he : e2.content = none) :
    fwContentInnerE pats a e2 = Except.ok a := by
  rw [fwContentInnerE_file hf, fwContentInner_skip he]

/-- An unreadable regular file is caught and skipped by the test-tool
content channel. -/
theorem testContentInnerE_caught {pats : List String} {a : Acc} {e2 : Entry}
    (hf : e2.isFile = true) (he : e2.content = none) :
    testContentInnerE pats a e2 = Except.ok a := by
  rw [testContentInnerE_file hf, testContentInner_skip he]

/-- An unreadable regular file is caught and skipped by the kubernetes
content check. -/
theorem k8sInnerE_caught {pats : List String} {a : Acc} {e2 : Entry}
    (hf : e2.isFile = true) (he : e2.content = none) :
    k8sInnerE pats a e2 = Except.ok a := by
  rw [k8sInnerE_file hf, k8sInner_skip he]

/-- An unreadable regular file is caught and skipped by the
infrastructure content channel. -/
theorem infraFileInnerE_caught {pats : List String} {a : Acc} {e2 : Entry}
    (hf : e2.isFile = true) (he : e2.content = none) :
    infraFileInnerE pats a e2 = Except.ok a := by
  rw [infraFileInnerE_file hf, infraFileInner_skip he]

/-- On a tree of regular files the fallible framework file-trigger step
succeeds with the total one's value. -/
theorem fwFileStepE_files {tree : Tree} (hfiles : ∀ e ∈ tree, e.isFile = true)
    (r : FwRule) (acc : Acc) (pat : String) :
    fwFileStepE tree r acc pat = Except.ok (fwFileStep tree r acc pat) := by
  unfold fwFileStepE fwFileStep
  dsimp only
  by_cases hm : (rglobMatches tree pat).isEmpty = true
  · rw [if_pos hm, if_pos hm]
  · rw [if_neg hm, if_neg hm]
    cases r.content_patterns with
    | none => rfl
    | some pats =>
        exact foldlE_eq_ok (fwFileInnerE pats) (fwFileInner pats) (rglobMatches tree pat)
          (fun a m hmem => fwFileInnerE_file (hfiles m (mem_rglobMatches hmem))) acc

/-- On a tree of regular files the fallible framework fallback step
succeeds with the total one's value. -/
theorem fwContentStepE_files {tree : Tree} (hfiles : ∀ e ∈ tree, e.isFile = true)
    (pats : List String) (acc : Acc) (ext : String) :
    fwContentStepE tree pats acc ext = Except.ok (fwContentStep tree pats acc ext) := by
  unfold fwContentStepE fwContentStep
  exact foldlE_eq_ok (fwContentInnerE pats) (fwContentInner pats)
    (rglobMatches tree ("*" ++ ext))
    (fun a m hmem => fwContentInnerE_file (hfiles m (mem_rglobMatches hmem))) acc

/-- On a tree of regular files the fallible test-tool content step
succeeds with the total one's value. -/
theorem testContentStepE_files {tree : Tree} (hfiles : ∀ e ∈ tree, e.isFile = true)
    (pats : List String) (acc : Acc) (ext : String) :
    testContentStepE tree pats acc ext = Except.ok (testContentStep tree pats acc ext) := by
  unfold testContentStepE testContentStep
  exact foldlE_eq_ok (testContentInnerE pats) (testContentInner pats)
    (rglobMatches tree ("*" ++ ext))
    (fun a m hmem => testContentInnerE_file (hfiles m (mem_rglobMatches hmem))) acc

/-- On a tree of regular files the fallible container file-trigger step
succeeds with the total one's value. -/
theorem containerFileStepE_files {tree : Tree} (hfiles : ∀ e ∈ tree, e.isFile = true)
    (r : ContainerRule) (acc : Acc) (pat : String) :
    containerFileStepE tree r acc pat = Except.ok (containerFileStep tree r acc pat) := by
  unfold containerFileStepE containerFileStep
  dsimp only
  by_cases hm : (rglobMatches tree pat).isEmpty = true
  · rw [if_pos hm, if_pos hm]
  · rw [if_neg hm, if_neg hm]
    by_cases hk : (r.name == "kubernetes" && r.content_patterns.isSome) = true
    · rw [if_pos hk, if_pos hk]
      exact foldlE_eq_ok (k8sInnerE (r.content_patterns.getD []))
        (k8sInner (r.content_patterns.getD [])) (rglobMatches tree pat)
        (fun a m hmem => k8sInnerE_file (hfiles m (mem_rglobMatches hmem))) acc
    · rw [if_neg hk, if_neg hk]

/-- On a tree of regular files the fallible infrastructure file-trigger
step succeeds with the total one's value. -/
theorem infraFileStepE_files {tree : Tree} (hfiles : ∀ e ∈ tree, e.isFile = true)
    (r : InfraRule) (acc : Acc) (pat : String) :
    infraFileStepE tree r acc pat = Except.ok (infraFileStep tree r acc pat) := by
  unfold infraFileStepE infraFileStep
  dsimp only
  by_cases hm : (rglobMatches tree pat).isEmpty = true
  · rw [if_pos hm, if_pos hm]
  · rw [if_neg hm, if_neg hm]
    cases r.content_patterns with
    | none => rfl
    | some pats =>
        exact foldlE_eq_ok (infraFileInnerE pats) (infraFileInner pats) (rglobMatches tree pat)
          (fun a m hmem => infraFileInnerE_file (hfiles m (mem_rglobMatches hmem))) acc

/-- On a tree of regular files one framework rule's fallible accumulator
succeeds with the total one's value. -/
theorem fwAccumE_files {tree : Tree} (hfiles : ∀ e ∈ tree, e.isFile = true) (r : FwRule) :
    fwAccumE tree r = Except.ok (fwAccum tree r) := by
  unfold fwAccumE fwAccum
  rw [foldlE_eq_ok (fun a p => fwFileStepE tree r a p) (fwFileStep tree r) r.files
    (fun a p _ => fwFileStepE_files hfiles r a p) (0, [])]
  dsimp only
  cases hc : r.content_patterns with
  | none => rfl
  | some pats =>
      dsimp only
      by_cases he : ((r.files.foldl (fwFileStep tree r) (0, [])).2).isEmpty = true
      · rw [if_pos he, if_pos he]
        exact foldlE_eq_ok (fun a ext => fwContentStepE tree pats a ext)
          (fwContentStep tree pats) (fw_file_extensions r.language)
          (fun a ext _ => fwContentStepE_files hfiles pats a ext)
          (r.files.foldl (fwFileStep tree r) (0, []))
      · rw [if_neg he, if_neg he]

/-- On a tree of regular files one test-tool rule's fallible accumulator
succeeds with the total one's value. -/
theorem testAccumE_files {tree : Tree} (hfiles : ∀ e ∈ tree, e.isFile = true) (r : TestRule) :
    testAccumE tree r = Except.ok (testAccum tree r) := by
  unfold testAccumE testAccum
  dsimp only
  cases hc : r.content_patterns with
  | none => rfl
  | some pats =>
      exact foldlE_eq_ok (fun a ext => testContentStepE tree pats a ext)
        (testContentStep tree pats) (test_file_extensions r.language)
        (fun a ext _ => testContentStepE_files hfiles pats a ext)
        (r.patterns.foldl (testPatStep tree) (r.files.foldl (testFileStep tree) (0, [])))

/-- On a tree of regular files one container rule's fallible accumulator
succeeds with the total one's value. -/
theorem containerAccumE_files {tree : Tree} (hfiles : ∀ e ∈ tree, e.isFile = true)
    (r : ContainerRule) :
    containerAccumE tree r = Except.ok (containerAccum tree r) := by
  unfold containerAccumE containerAccum
  exact foldlE_eq_ok (fun a p => containerFileStepE tree r a p) (containerFileStep tree r)
    r.files (fun a p _ => containerFileStepE_files hfiles r a p) (0, [])

/-- On a tree of regular files one infrastructure rule's fallible
accumulator succeeds with the total one's value. -/
theorem infraAccumE_files {tree : Tree} (hfiles : ∀ e ∈ tree, e.isFile = true)
    (r : InfraRule) :
    infraAccumE tree r = Except.ok (infraAccum tree r) := by
  unfold infraAccumE infraAccum
  exact foldlE_eq_ok (fun a p => infraFileStepE tree r a p) (infraFileStep tree r)
    r.files (fun a p _ => infraFileStepE_files hfiles r a p) (0, [])

/-- The fallible emission fold over a rule catalog succeeds when each
rule's accumulator does, computing the total emission list. -/
theorem foldlE_emit {ρ : Type} (accE : ρ → Except String Acc) (accT : ρ → Acc)
    (nm : ρ → String) (h : ∀ r, accE r = Except.ok (accT r)) :
    ∀ (rules : List ρ) (acc : List DetectedTechnology),
      foldlE (fun acc2 r =>
        match accE r with
        | Except.error e => Except.error e
        | Except.ok a => Except.ok (acc2 ++ (emit (nm r) a).toList)) rules acc =
      Except.ok (acc ++ rules.filterMap (fun r => emit (nm r) (accT r))) := by
  intro rules
  induction rules with
  | nil => intro acc; simp [foldlE]
  | cons r rs ih =>
      intro acc
      simp only [foldlE]
      rw [h r]
      refine (ih (acc ++ (emit (nm r) (accT r)).toList)).trans ?_
      cases hr : emit (nm r) (accT r) with
      | none => simp [List.filterMap_cons, hr]
      | some t => simp [List.filterMap_cons, hr]

/-- On a tree of regular files the fallible frameworks pass succeeds with
the total catalog-order list. -/
theorem fwUnsortedE_files {tree : Tree} (hfiles : ∀ e ∈ tree, e.isFile = true) :
    fwUnsortedE tree = Except.ok (fwUnsorted tree) := by
  unfold fwUnsortedE fwUnsorted
  refine (foldlE_emit (fwAccumE tree) (fwAccum tree) (fun r => r.name)
    (fun r => fwAccumE_files hfiles r) framework_rules []).trans ?_
  simp

/-- On a tree of regular files the fallible test-tools pass succeeds with
the total catalog-order list. -/
theorem testUnsortedE_files {tree : Tree} (hfiles : ∀ e ∈ tree, e.isFile = true) :
    testUnsortedE tree = Except.ok (testUnsorted tree) := by
  unfold testUnsortedE testUnsorted
  refine (foldlE_emit (testAccumE tree) (testAccum tree) (fun r => r.name)
    (fun r => testAccumE_files hfiles r) test_tool_rules []).trans ?_
  simp

/-- On a tree of regular files the fallible containers pass succeeds with
the total catalog-order list. -/
theorem containerUnsortedE_files {tree : Tree} (hfiles : ∀ e ∈ tree, e.isFile = true) :
    containerUnsortedE tree = Except.ok (containerUnsorted tree) := by
  unfold containerUnsortedE containerUnsorted
  refine (foldlE_emit (containerAccumE tree) (containerAccum tree) (fun r => r.name)
    (fun r => containerAccumE_files hfiles r) container_rules []).trans ?_
  simp

/-- On a tree of regular files the fallible infrastructure pass succeeds
with the total catalog-order list. -/
theorem infraUnsortedE_files {tree : Tree} (hfiles : ∀ e ∈ tree, e.isFile = true) :
    infraUnsortedE tree = Except.ok (infraUnsorted tree) := by
  unfold infraUnsortedE infraUnsorted
  refine (foldlE_emit (infraAccumE tree) (infraAccum tree) (fun r => r.name)
    (fun r => infraAccumE_files hfiles r) infrastructure_rules []).trans ?_
  simp

/-- On a tree of regular files the fallible frameworks scan succeeds with
the total sorted list. -/
theorem detect_frameworksE_files {tree : Tree} (hfiles : ∀ e ∈ tree, e.isFile = true) :
    _detect_frameworksE tree = Except.ok (_detect_frameworks tree) := by
  unfold _detect_frameworksE _detect_frameworks
  rw [fwUnsortedE_files hfiles]

/-- On a tree of regular files the fallible test-tools scan succeeds with
the total sorted list. -/
theorem detect_test_toolsE_files {tree : Tree} (hfiles : ∀ e ∈ tree, e.isFile = true) :
    _detect_test_toolsE tree = Except.ok (_detect_test_tools tree) := by
  unfold _detect_test_toolsE _detect_test_tools
  rw [testUnsortedE_files hfiles]

/-- On a tree of regular files the fallible containers scan succeeds with
the total sorted list. -/
theorem detect_containersE_files {tree : Tree} (hfiles : ∀ e ∈ tree, e.isFile = true) :
    _detect_containersE tree = Except.ok (_detect_containers tree) := by
  unfold _detect_containersE _detect_containers
  rw [containerUnsortedE_files hfiles]

/-- On a tree of regular files the fallible infrastructure scan succeeds
with the total sorted list. -/
theorem detect_infrastructureE_files {tree : Tree} (hfiles : ∀ e ∈ tree, e.isFile = true) :
    _detect_infrastructureE tree = Except.ok (_detect_infrastructure tree) := by
  unfold _detect_infrastructureE _detect_infrastructure
  rw [infraUnsortedE_files hfiles]

/-- On a repository whose entries are all regular files the fallible and
the total scanner coincide: the error path is unreachable. -/
theorem scan_repositoryE_eq_scan_repository (fs : RepoFS)
    (hfiles : ∀ e ∈ fs.entries, e.isFile = true) :
    scan_repositoryE fs = scan_repository fs := by
  unfold scan_repositoryE scan_repository
  by_cases hp : fs.pathExists = true
  · rw [hp, detect_frameworksE_files hfiles, detect_test_toolsE_files hfiles,
      detect_containersE_files hfiles, detect_infrastructureE_files hfiles]
  · have hp2 : fs.pathExists = false := by
      revert hp
      cases fs.pathExists <;> simp
    rw [hp2]
    rfl

/-- Prepending an unreadable regular file leaves the fallible framework
fallback step unchanged: the read is caught and skipped. -/
theorem fwContentStepE_skip_unreadable {e2 : Entry} (hf : e2.isFile = true)
    (he : e2.content = none) (tree : Tree) (pats : List String) (acc : Acc) (ext : String) :
    fwContentStepE (e2 :: tree) pats acc ext = fwContentStepE tree pats acc ext := by
  unfold fwContentStepE
  rw [rglobMatches_cons]
  by_cases hg : globMatch ("*" ++ ext) e2.name = true
  · rw [if_pos hg]
    simp only [foldlE]
    rw [fwContentInnerE_caught hf he]
  · rw [if_neg hg]

/-- Prepending an unreadable regular file leaves the fallible test-tool
content step unchanged: the read is caught and skipped. -/
theorem testContentStepE_skip_unreadable {e2 : Entry} (hf : e2.isFile = true)
    (he : e2.content = none) (tree : Tree) (pats : List String) (acc : Acc) (ext : String) :
    testContentStepE (e2 :: tree) pats acc ext = testContentStepE tree pats acc ext := by
  unfold testContentStepE
  rw [rglobMatches_cons]
  by_cases hg : globMatch ("*" ++ ext) e2.name = true
  · rw [if_pos hg]
    simp only [foldlE]
    rw [testContentInnerE_caught hf he]
  · rw [if_neg hg]

/-- C9, counterexample: the claim says an unreadable file never aborts a
scan of an existing path, but on `dirTreeFS` — which contains an
unreadable regular file and a directory named `x.py` — the fallback scan
`rglob` matches the directory, its read raises `IsADirectoryError`, and
the whole scan aborts. -/
theorem C9_counterexample :
    unreadableBlob ∈ dirTreeFS.entries ∧ unreadableBlob.isFile = true ∧
    unreadableBlob.content = none ∧ dirTreeFS.pathExists = true ∧
    scan_repositoryE dirTreeFS = Except.error "IsADirectoryError: x.py" :=
  ⟨by decide, rfl, rfl, rfl, by rfl⟩

/-- C9, amended: reading a file is guarded only against
`UnicodeDecodeError` and `PermissionError`, so an unreadable regular
file is skipped by every content channel (contributing nothing) while
the file-trigger and filename-regex channels — which never read content —
are invariant under erasing all contents; on a repository of regular
files the scan completes and equals the total scan. A glob-matched
directory, however, raises an uncaught `IsADirectoryError` that aborts
the scan. -/
theorem C9_unreadable_files_amended (fs : RepoFS) (hok : fs.pathExists = true)
    (hfiles : ∀ e ∈ fs.entries, e.isFile = true)
    (tree : Tree) (e2 : Entry) (hf : e2.isFile = true) (he : e2.content = none) :
    scan_repositoryE fs = scan_repository fs ∧
    (∃ a, scan_repositoryE fs = Except.ok a) ∧
    _detect_languages (tree.map eraseContent) = _detect_languages tree ∧
    _detect_build_tools (tree.map eraseContent) = _detect_build_tools tree ∧
    _detect_package_managers (tree.map eraseContent) = _detect_package_managers tree ∧
    (∀ acc pat, testFileStep (tree.map eraseContent) acc pat = testFileStep tree acc pat) ∧
    (∀ acc pat, testPatStep (tree.map eraseContent) acc pat = testPatStep tree acc pat) ∧
    (∀ pats acc ext,
      fwContentStepE (e2 :: tree) pats acc ext = fwContentStepE tree pats acc ext) ∧
    (∀ pats acc ext,
      testContentStepE (e2 :: tree) pats acc ext = testContentStepE tree pats acc ext) ∧
    (∀ pats a, fwFileInnerE pats a e2 = Except.ok a) ∧
    (∀ pats a, fwContentInnerE pats a e2 = Except.ok a) ∧
    (∀ pats a, testContentInnerE pats a e2 = Except.ok a) ∧
    (∀ pats a, k8sInnerE pats a e2 = Except.ok a) ∧
    (∀ pats a, infraFileInnerE pats a e2 = Except.ok a) := by
  have heq := scan_repositoryE_eq_scan_repository fs hfiles
  have htot : ∃ a, scan_repositoryE fs = Except.ok a := by
    rw [heq]
    unfold scan_repository
    rw [hok]
    simp
  exact ⟨heq, htot, detect_languages_eraseContent tree, detect_build_tools_eraseContent tree,
    detect_package_managers_eraseContent tree,
    fun acc pat => testFileStep_eraseContent tree acc pat,
    fun acc pat => testPatStep_eraseContent tree acc pat,
    fun pats acc ext => fwContentStepE_skip_unreadable hf he tree pats acc ext,
    fun pats acc ext => testContentStepE_skip_unreadable hf he tree pats acc ext,
    fun pats a => fwFileInnerE_caught hf he,
    fun pats a => fwContentInnerE_caught hf he,
    fun pats a => testContentInnerE_caught hf he,
    fun pats a => k8sInnerE_caught hf he,
    fun pats a => infraFileInnerE_caught hf he⟩

/-- C9, witness: the amended conclusion at Scenario A (all entries are
regular files) with an unreadable binary blob as the skipped file. -/
theorem C9_unreadable_files_amended_witness :
    scan_repositoryE scenarioAFS = scan_repository scenarioAFS ∧
    (∃ a, scan_repositoryE scenarioAFS = Except.ok a) ∧
    _detect_languages (scenarioAFS.entries.map eraseContent) =
      _detect_languages scenarioAFS.entries ∧
    _detect_build_tools (scenarioAFS.entries.map eraseContent) =
      _detect_build_tools scenarioAFS.entries ∧
    _detect_package_managers (scenarioAFS.entries.map eraseContent) =
      _detect_package_managers scenarioAFS.entries ∧
    (∀ acc pat, testFileStep (scenarioAFS.entries.map eraseContent) acc pat =
      testFileStep scenarioAFS.entries acc pat) ∧
    (∀ acc pat, testPatStep (scenarioAFS.entries.map eraseContent) acc pat =
      testPatStep scenarioAFS.entries acc pat) ∧
    (∀ pats acc ext, fwContentStepE (unreadableBlob :: scenarioAFS.entries) pats acc ext =
      fwContentStepE scenarioAFS.entries pats acc ext) ∧
    (∀ pats acc ext, testContentStepE (unreadableBlob :: scenarioAFS.entries) pats acc ext =
      testContentStepE scenarioAFS.entries pats acc ext) ∧
    (∀ pats a, fwFileInnerE pats a unreadableBlob = Except.ok a) ∧
    (∀ pats a, fwContentInnerE pats a unreadableBlob = Except.ok a) ∧
    (∀ pats a, testContentInnerE pats a unreadableBlob = Except.ok a) ∧
    (∀ pats a, k8sInnerE pats a unreadableBlob = Except.ok a) ∧
    (∀ pats a, infraFileInnerE pats a unreadableBlob = Except.ok a) :=
  C9_unreadable_files_amended scenarioAFS (by rfl) (by decide) scenarioAFS.entries
    unreadableBlob (by rfl) (by rfl)

end AutoCI
